import Mathlib

/-!
Alert monitor: state machine and repeat scheduler.

A shallow embedding of `main.go`: the persisted per-region alert state
(`State`), the notification state machine (`ProcessStateWithRegion`), the
repeat scheduler (`checkAndPlayRepeatAudio`) and the derivation of one
observation from the decoded API answer (`ProcessAlertsWithFirstRun`,
`ProcessAlerts`).

Modelling conventions.

* Side effects are recorded as the list of calls made to the two effectful
  helpers of the program, `Log` and `PlayAudio`, in program order.  A
  `PlayAudio` call records which configuration slot supplied the file path.
* `state.json` is passed in as the result of `LoadState` and handed back as the
  argument of `SaveState`; the package-level map `repeatPlayedMinutes` is
  passed in and handed back as a `Ledger`.
* A `time.Time` is the integer count of nanoseconds since the zero time
  (January 1, year 1, 00:00:00 UTC); a `time.Duration` is a 64-bit count of
  nanoseconds, so products wrap modulo `2^64`.  The functions of the standard
  `time` package that read or print a timestamp are taken as a parameter
  (`TimeAPI`); `stdTime` is a concrete instance for canonical timestamps.
  The bounded range of a `time.Time` (64-bit seconds) is not modelled:
  `Time.Add` is exact addition.
* The type `int` of the configuration is an unbounded integer; the conversion
  to `time.Duration` and the product with `time.Minute` are 64-bit.
* The `for` loop of the scheduler is not bounded by the program, so it is run
  with fuel: `none` means that the fuel did not suffice.
-/

namespace Alerts

/-! ## Time -/

/-- A `time.Time` instant: nanoseconds since the zero time. -/
abbrev Time := Int

/-- A `time.Duration`: nanoseconds, a signed 64-bit integer in the program. -/
abbrev Duration := Int

/-- The constant `time.Minute`. -/
def Minute : Int := 60000000000

/-- Two-complement wrap of an integer into the range of `int64`. -/
def wrapInt64 (x : Int) : Int := (x + 2 ^ 63) % 2 ^ 64 - 2 ^ 63

/-- The method `Time.Truncate`: round down to a multiple of `d` since the zero
time; a non-positive `d` leaves the time unchanged. -/
def Truncate (t : Time) (d : Duration) : Time :=
  if d ≤ 0 then t else t - t % d

/-- The method `Time.Add`. -/
def Add (t : Time) (d : Duration) : Time := t + d

/-- The method `Time.Before`. -/
def Before (t u : Time) : Bool := decide (t < u)

/-- The method `Time.Equal`. -/
def Equal (t u : Time) : Bool := decide (t = u)

/-- The functions of the standard `time` package used by the program.

* `parse s` is `time.Parse(time.RFC3339, s)`: `none` when it returns an error.
* `format t` is `t.Format("2006-01-02T15:04")` for a UTC time `t`.
* `formatLocal tz t` is `t.In(loc).Format("2006-01-02 15:04:05")` for the
  location `loc` loaded from `tz`: `none` when `time.LoadLocation` fails. -/
structure TimeAPI where
  parse : String → Option Time
  format : Time → String
  formatLocal : String → Time → Option String

/-- The value the program gets from `t, _ := time.Parse(time.RFC3339, s)`:
the parsed time, or the zero `Time` when parsing failed. -/
def parseOrZero (T : TimeAPI) (s : String) : Time :=
  match T.parse s with
  | some t => t
  | none => 0

/-! ## Data model -/

/-- The struct `Config`.  `AudioFiles` is a Go map: a lookup of a missing key
gives the empty string. -/
structure Config where
  APIURL : String
  AuthHeader : String
  AudioFiles : String → String
  AlertOnEmpty : String
  TimeZone : String
  LogToFile : Bool
  LogFilePath : String
  LogLevel : Int
  RepeatAudioFile : String
  EnableRepeatAudio : Bool
  RepeatIntervalMin : Int
  RequestIntervalSec : Int
  LogToConsole : Bool

/-- The struct `Alert`; its field `Type` is written `Type_`, `Type` being a
keyword here. -/
structure Alert where
  RegionID : String
  RegionType : String
  Type_ : String
  LastUpdate : String
  deriving DecidableEq, Repr

/-- The struct `APIResponse`. -/
structure APIResponse where
  RegionID : String
  RegionType : String
  RegionName : String
  RegionEngName : String
  LastUpdate : String
  ActiveAlerts : List Alert
  deriving DecidableEq, Repr

/-- The struct `State`: one persisted record. -/
structure State where
  IsActive : Bool
  EventLastUpdate : String
  EventRegion : String
  ActiveEventType : String
  Alarmed : Bool
  deriving DecidableEq, Repr

/-- The package-level map `repeatPlayedMinutes`: region to (minute-key to
flag); `none` is a nil inner map. -/
abbrev Ledger := String → Option (String → Bool)

/-- The read `repeatPlayedMinutes[region][minuteKey]`; a nil map reads
`false`. -/
def Ledger.played (l : Ledger) (region minuteKey : String) : Bool :=
  match l region with
  | some m => m minuteKey
  | none => false

/-- The statement `repeatPlayedMinutes[region] = make(map[string]bool)`. -/
def Ledger.makeRegion (l : Ledger) (region : String) : Ledger :=
  fun r => if r = region then some (fun _ => false) else l r

/-- The statement `repeatPlayedMinutes[region][minuteKey] = true`, for a
region whose inner map exists. -/
def Ledger.record (l : Ledger) (region minuteKey : String) : Ledger :=
  fun r =>
    if r = region then
      match l r with
      | some m => some (fun k => if k = minuteKey then true else m k)
      | none => none
    else l r

/-- The argument of a `PlayAudio` call, by the configuration slot it is read
from. -/
inductive Sound where
  /-- The path `config.AudioFiles[eventType]`: the sound of an event type. -/
  | AudioFiles (eventType : String)
  /-- The path `config.AlertOnEmpty`: the all-clear sound. -/
  | AlertOnEmpty
  /-- The path `config.RepeatAudioFile`: the repeat reminder. -/
  | RepeatAudioFile
  deriving DecidableEq, Repr

/-- The file path handed to `PlayAudio` for a sound. -/
def Config.filePath (config : Config) : Sound → String
  | .AudioFiles eventType => config.AudioFiles eventType
  | .AlertOnEmpty => config.AlertOnEmpty
  | .RepeatAudioFile => config.RepeatAudioFile

/-- A call to one of the two effectful helpers. -/
inductive Call where
  /-- A call `Log(level, config, message)`. -/
  | Log (level : Nat) (message : String)
  /-- A call `PlayAudio(path)`, the path read from the slot `sound`. -/
  | PlayAudio (sound : Sound)
  deriving DecidableEq, Repr

/-- The return point of `ProcessStateWithRegion` that was taken. -/
inductive Branch where
  /-- Return after `LoadState` failed (lines 238-241). -/
  | loadError
  /-- No record for the region (lines 251-269). -/
  | firstSight
  /-- Stored `IsActive` differs from the observed one (lines 274-286). -/
  | statusChanged
  /-- Same status, `Alarmed` false (lines 288-298). -/
  | notYetNotified
  /-- Same status, `Alarmed` true (lines 300-304). -/
  | unchanged
  deriving DecidableEq, Repr

/-- What one run of `ProcessStateWithRegion` did: the calls made, the argument
of `SaveState` (`none` when it was not called), the ledger afterwards and the
return point. -/
structure Outcome where
  calls : List Call
  saved : Option (List State)
  ledger : Ledger
  branch : Branch

/-- The sounds played by a list of calls, in order. -/
def sounds : List Call → List Sound
  | [] => []
  | .PlayAudio s :: rest => s :: sounds rest
  | .Log _ _ :: rest => sounds rest

/-- A start or end notification: the sound of an event type or the
all-clear sound (the repeat reminder is neither). -/
def Sound.isStartEnd : Sound → Bool
  | .AudioFiles _ => true
  | .AlertOnEmpty => true
  | .RepeatAudioFile => false

/-- The start and end notifications among a list of calls, in order. -/
def startEnd (calls : List Call) : List Sound :=
  (sounds calls).filter Sound.isStartEnd

/-! ## The repeat scheduler -/

/-- The interval of the scheduler,
`time.Duration(config.RepeatIntervalMin) * time.Minute`, a 64-bit product. -/
def repeatInterval (config : Config) : Duration :=
  wrapInt64 (config.RepeatIntervalMin * Minute)

/-- The loop `for next.Before(now) || next.Equal(now)` of
`checkAndPlayRepeatAudio` (lines 325-336), started at `next`.  `none`: the
fuel ran out before the loop ended. -/
def repeatLoop (T : TimeAPI) (region : String) (now : Time) (interval : Duration) :
    Nat → Time → Ledger → Option (List Call × Ledger)
  | 0, _, _ => none
  | fuel + 1, next, ledger =>
    if Before next now || Equal next now then
      let minuteKey := T.format next
      if Equal next now then
        if !ledger.played region minuteKey then
          some ([Call.PlayAudio Sound.RepeatAudioFile,
                 Call.Log 1 "Повітряна тривога триває (повтор)"],
                ledger.record region minuteKey)
        else
          some ([], ledger)
      else
        repeatLoop T region now interval fuel (Add next interval) ledger
    else
      some ([], ledger)

/-- The function `checkAndPlayRepeatAudio`.  `clock` is the reading of
`time.Now()`; the location only changes how that instant is displayed. -/
def checkAndPlayRepeatAudio (T : TimeAPI) (fuel : Nat) (config : Config) (state : State)
    (eventLastUpdate : String) (clock : Time) (ledger : Ledger) :
    Option (List Call × Ledger) :=
  match T.parse eventLastUpdate with
  | none => some ([], ledger)
  | some start =>
    let now := Truncate clock Minute
    let interval := repeatInterval config
    let next := Add (Truncate start Minute) interval
    let region := state.EventRegion
    let ledger := if (ledger region).isNone then ledger.makeRegion region else ledger
    repeatLoop T region now interval fuel next ledger

/-! ## The state machine -/

/-- The search loop of lines 243-249: position and value of the first record
whose `EventRegion` is the region. -/
def findState : List State → String → Option (Nat × State)
  | [], _ => none
  | s :: rest, eventRegion =>
    if s.EventRegion = eventRegion then some (0, s)
    else
      match findState rest eventRegion with
      | some (i, c) => some (i + 1, c)
      | none => none

/-- The function `ProcessStateWithRegion`.  `loaded` is what
`LoadState("state.json")` returns, `clock` the reading of `time.Now()`. -/
def ProcessStateWithRegion (T : TimeAPI) (fuel : Nat) (config : Config) (clock : Time)
    (isActive : Bool) (eventLastUpdate eventRegion activeEventType regionName : String)
    (loaded : Except String (List State)) (ledger : Ledger) : Option Outcome :=
  match loaded with
  | .error err =>
    some ⟨[Call.Log 3 ("Помилка завантаження state: " ++ err)], none, ledger, .loadError⟩
  | .ok states =>
    match findState states eventRegion with
    | none =>
      let newState : State :=
        { IsActive := isActive, EventLastUpdate := eventLastUpdate,
          EventRegion := eventRegion, ActiveEventType := activeEventType,
          Alarmed := false }
      if isActive then
        some ⟨[Call.Log 1 ("Початок повітряної тривоги (" ++ activeEventType
                  ++ ") в регіоні: " ++ regionName),
               Call.PlayAudio (Sound.AudioFiles activeEventType)],
              some (states ++ [{ newState with Alarmed := true }]), ledger, .firstSight⟩
      else
        some ⟨[], some (states ++ [{ newState with Alarmed := true }]), ledger, .firstSight⟩
    | some (i, currentState) =>
      let currentState : State :=
        { currentState with
          EventLastUpdate := eventLastUpdate, ActiveEventType := activeEventType }
      if currentState.IsActive != isActive then
        let calls :=
          if isActive then
            [Call.Log 1 ("Початок повітряної тривоги (" ++ activeEventType
                ++ ") в регіоні: " ++ regionName),
             Call.PlayAudio (Sound.AudioFiles activeEventType)]
          else
            [Call.Log 1 ("Кінець повітряної тривоги в регіоні: " ++ regionName),
             Call.PlayAudio Sound.AlertOnEmpty]
        some ⟨calls,
              some (states.set i { currentState with IsActive := isActive, Alarmed := true }),
              ledger, .statusChanged⟩
      else if !currentState.Alarmed then
        let calls :=
          if isActive then
            [Call.Log 1 "Повітряна тривога триває",
             Call.PlayAudio (Sound.AudioFiles activeEventType)]
          else
            [Call.PlayAudio Sound.AlertOnEmpty]
        some ⟨calls, some (states.set i { currentState with Alarmed := true }),
              ledger, .notYetNotified⟩
      else if isActive && config.EnableRepeatAudio then
        match checkAndPlayRepeatAudio T fuel config currentState eventLastUpdate clock
            ledger with
        | none => none
        | some (calls, ledger) =>
          some ⟨calls, some (states.set i currentState), ledger, .unchanged⟩
      else
        some ⟨[], some (states.set i currentState), ledger, .unchanged⟩

/-- The inputs of one call of `ProcessStateWithRegion`: the reading of the
clock during the call and the five arguments after `config`. -/
structure Observation where
  clock : Time
  isActive : Bool
  eventLastUpdate : String
  eventRegion : String
  activeEventType : String
  regionName : String

/-- One call of `ProcessStateWithRegion` on a store that loads. -/
def processObservation (T : TimeAPI) (fuel : Nat) (config : Config) (ob : Observation)
    (states : List State) (ledger : Ledger) : Option Outcome :=
  ProcessStateWithRegion T fuel config ob.clock ob.isActive ob.eventLastUpdate
    ob.eventRegion ob.activeEventType ob.regionName (.ok states) ledger

/-- Successive calls of `ProcessStateWithRegion`, as made by the loop of
`main`: each call loads the store saved by the call before it (the old store
when nothing was saved) and sees the ledger left by the call before it. -/
def runObservations (T : TimeAPI) (fuel : Nat) (config : Config) :
    List Observation → List State → Ledger → Option (List Outcome)
  | [], _, _ => some []
  | ob :: rest, states, ledger =>
    match processObservation T fuel config ob states ledger with
    | none => none
    | some o =>
      match runObservations T fuel config rest (o.saved.getD states) o.ledger with
      | none => none
      | some os => some (o :: os)

/-- The stores that the state machine itself can produce: the empty store, and
every store saved by a call of `ProcessStateWithRegion` that loaded such a
store. -/
inductive Reachable : List State → Prop where
  | empty : Reachable []
  | step {T : TimeAPI} {fuel : Nat} {config : Config} {ob : Observation}
      {states states' : List State} {ledger : Ledger} {o : Outcome} :
      Reachable states →
      processObservation T fuel config ob states ledger = some o →
      o.saved = some states' →
      Reachable states'

/-- The record a store holds for an observation once it has been processed,
in the words of the specification: the fields of the observation, and
notified. -/
def observedRecord (isActive : Bool) (eventLastUpdate eventRegion activeEventType : String) :
    State :=
  { IsActive := isActive, EventLastUpdate := eventLastUpdate, EventRegion := eventRegion,
    ActiveEventType := activeEventType, Alarmed := true }

/-- The update of the store in the words of the specification: the first
record of the region gets the observed timestamp, event type and status and is
marked notified; without such a record, one is appended at the end. -/
def upsert (isActive : Bool) (eventLastUpdate eventRegion activeEventType : String) :
    List State → List State
  | [] => [observedRecord isActive eventLastUpdate eventRegion activeEventType]
  | s :: rest =>
    if s.EventRegion = eventRegion then
      { s with IsActive := isActive, EventLastUpdate := eventLastUpdate,
               ActiveEventType := activeEventType, Alarmed := true } :: rest
    else s :: upsert isActive eventLastUpdate eventRegion activeEventType rest

/-! ## From the API answer to an observation -/

/-- The loop of lines 200-207 and 408-415: starting from the first alert, an
alert replaces the current choice when its time is before the time of the
current choice.  A timestamp that does not parse counts as the zero time. -/
def earliestAlert (T : TimeAPI) (first : Alert) (alerts : List Alert) : Alert :=
  alerts.foldl
    (fun earliestAlert alert =>
      if Before (parseOrZero T alert.LastUpdate) (parseOrZero T earliestAlert.LastUpdate)
      then alert else earliestAlert)
    first

/-- The local variables of lines 192-213 and 400-421 after the selection. -/
structure Event where
  isActive : Bool
  eventLastUpdate : String
  eventRegion : String
  eventRegionEng : String
  eventRegionName : String
  activeEventType : String
  deriving DecidableEq, Repr

/-- Lines 192-213 and 400-421: the event parameters derived from the first
record of the API answer. -/
def eventOf (T : TimeAPI) (first : APIResponse) : Event :=
  match first.ActiveAlerts with
  | a :: rest =>
    let earliest := earliestAlert T a (a :: rest)
    { isActive := true, eventLastUpdate := earliest.LastUpdate,
      eventRegion := earliest.RegionID, eventRegionEng := first.RegionEngName,
      eventRegionName := first.RegionName, activeEventType := earliest.Type_ }
  | [] =>
    { isActive := false, eventLastUpdate := first.LastUpdate,
      eventRegion := first.RegionID, eventRegionEng := first.RegionEngName,
      eventRegionName := first.RegionName, activeEventType := "" }

/-- The function `boolToStr`. -/
def boolToStr (b : Bool) : String := if b then "true" else "false"

/-- The diagnostic line of lines 215-230 and 423-438, logged at level 2. -/
def diagnostic (T : TimeAPI) (config : Config) (e : Event) : List Call :=
  if config.LogLevel ≥ 2 then
    let eventTimeStr :=
      if e.eventLastUpdate ≠ "" then
        match T.parse e.eventLastUpdate with
        | some t =>
          match T.formatLocal config.TimeZone t with
          | some local_ => e.eventLastUpdate ++ " (" ++ local_ ++ ")"
          | none => e.eventLastUpdate
        | none => e.eventLastUpdate
      else e.eventLastUpdate
    let regionStr :=
      if e.eventRegionEng ≠ "" then e.eventRegion ++ " (" ++ e.eventRegionEng ++ ")"
      else e.eventRegion
    [Call.Log 2 ("isActive=" ++ boolToStr e.isActive ++ ", eventLastUpdate=" ++ eventTimeStr
      ++ ", eventRegion=" ++ regionStr ++ ", activeEventType=" ++ e.activeEventType)]
  else []

/-- The stage at which fetching the API answer failed, with the text of the
error. -/
inductive FetchError where
  /-- Failure of `http.NewRequest`. -/
  | newRequest (err : String)
  /-- Failure of `client.Do`. -/
  | doRequest (err : String)
  /-- Failure of `ioutil.ReadAll`. -/
  | readBody (err : String)
  /-- Failure of `json.Unmarshal`. -/
  | unmarshal (err : String)
  deriving DecidableEq, Repr

/-- The message logged at level 3 for a fetch error. -/
def FetchError.message : FetchError → String
  | .newRequest err => "Помилка запиту до сервера: " ++ err
  | .doRequest err => "Помилка виконання API запиту: " ++ err
  | .readBody err => "Помилка читання відповіді API: " ++ err
  | .unmarshal err => "Помилка розпознавання запиту API: " ++ err

/-- What one poll did: the calls made, the argument of `SaveState` if it was
called, the ledger afterwards, the return point of `ProcessStateWithRegion` if
it was reached, and the two values returned by `ProcessAlertsWithFirstRun`. -/
structure PollOutcome where
  calls : List Call
  saved : Option (List State)
  ledger : Ledger
  branch : Option Branch
  isActive : Bool
  regionName : String

/-- The function `ProcessAlertsWithFirstRun`, from the point where the HTTP
exchange has produced `fetched`: the decoded body or the error.  The flag
`firstRun` is not read by the function. -/
def ProcessAlertsWithFirstRun (T : TimeAPI) (fuel : Nat) (config : Config) (clock : Time)
    (fetched : Except FetchError (List APIResponse))
    (loaded : Except String (List State)) (ledger : Ledger) : Option PollOutcome :=
  match fetched with
  | .error e => some ⟨[Call.Log 3 e.message], none, ledger, none, false, ""⟩
  | .ok [] => some ⟨[Call.Log 2 "Пуста відповідь API"], none, ledger, none, false, ""⟩
  | .ok (first :: _) =>
    let e := eventOf T first
    match ProcessStateWithRegion T fuel config clock e.isActive e.eventLastUpdate
        e.eventRegion e.activeEventType e.eventRegionName loaded ledger with
    | none => none
    | some o =>
      some ⟨diagnostic T config e ++ o.calls, o.saved, o.ledger, some o.branch,
            e.isActive, e.eventRegionName⟩

/-- The function `ProcessAlerts`: the same statements as
`ProcessAlertsWithFirstRun`, without the returned values. -/
def ProcessAlerts (T : TimeAPI) (fuel : Nat) (config : Config) (clock : Time)
    (fetched : Except FetchError (List APIResponse))
    (loaded : Except String (List State)) (ledger : Ledger) :
    Option (List Call × Option (List State) × Ledger) :=
  match fetched with
  | .error e => some ([Call.Log 3 e.message], none, ledger)
  | .ok [] => some ([Call.Log 2 "Пуста відповідь API"], none, ledger)
  | .ok (first :: _) =>
    let e := eventOf T first
    match ProcessStateWithRegion T fuel config clock e.isActive e.eventLastUpdate
        e.eventRegion e.activeEventType e.eventRegionName loaded ledger with
    | none => none
    | some o => some (diagnostic T config e ++ o.calls, o.saved, o.ledger)

/-! ## A concrete instance of the time functions -/

/-- The value of a decimal digit. -/
def digit? (c : Char) : Option Nat :=
  if c.isDigit then some (c.toNat - 48) else none

/-- Two decimal digits. -/
def twoDigits? (a b : Char) : Option Nat :=
  match digit? a, digit? b with
  | some x, some y => some (10 * x + y)
  | _, _ => none

/-- Leap years of the proleptic Gregorian calendar. -/
def isLeap (y : Int) : Bool := y % 4 = 0 && (y % 100 ≠ 0 || y % 400 = 0)

/-- Days in a month. -/
def daysIn (y : Int) (m : Nat) : Nat :=
  if m = 2 then (if isLeap y then 29 else 28)
  else if m = 4 ∨ m = 6 ∨ m = 9 ∨ m = 11 then 30 else 31

/-- Days of the year before the first day of a month. -/
def daysBefore (y : Int) (m : Nat) : Nat :=
  (List.range (m - 1)).foldl (fun acc i => acc + daysIn y (i + 1)) 0

/-- Days from January 1 of year 1 to a calendar date. -/
def daysSinceZero (y : Int) (m d : Nat) : Int :=
  365 * (y - 1) + (y - 1) / 4 - (y - 1) / 100 + (y - 1) / 400 + daysBefore y m + (d - 1 : Nat)

/-- The zone suffix of an RFC 3339 timestamp: its offset in seconds. -/
def zoneOffset? : List Char → Option Int
  | ['Z'] => some 0
  | [sign, h1, h2, ':', m1, m2] =>
    match twoDigits? h1 h2, twoDigits? m1 m2 with
    | some h, some m =>
      if h < 24 ∧ m < 60 then
        if sign = '+' then some (3600 * h + 60 * m : Nat)
        else if sign = '-' then some (-(3600 * h + 60 * m : Nat))
        else none
      else none
    | _, _ => none
  | _ => none

/-- The fractional digits after the seconds, as nanoseconds (digits past the
ninth are dropped), and the rest of the input. -/
def fraction : Nat → Nat → List Char → Nat × List Char
  | scale, acc, c :: rest =>
    match digit? c with
    | some v => fraction (scale / 10) (acc + v * (scale / 10)) rest
    | none => (acc, c :: rest)
  | _, acc, [] => (acc, [])

/-- A reader of timestamps of the shape `YYYY-MM-DDTHH:MM:SS[.fff](Z|+HH:MM|-HH:MM)`
with the fields in their calendar ranges; everything else is an error.  It is
stricter than `time.Parse(time.RFC3339, ·)`, which also takes a one-digit hour,
a comma before the fraction and the offset `+24:00`; the two agree on the
canonical shape above and on strings that are no timestamp at all. -/
def parseRFC3339 (s : String) : Option Time :=
  match s.toList with
  | y1 :: y2 :: y3 :: y4 :: '-' :: mo1 :: mo2 :: '-' :: d1 :: d2 :: 'T' ::
      h1 :: h2 :: ':' :: mi1 :: mi2 :: ':' :: s1 :: s2 :: rest =>
    match twoDigits? y1 y2, twoDigits? y3 y4, twoDigits? mo1 mo2, twoDigits? d1 d2,
        twoDigits? h1 h2, twoDigits? mi1 mi2, twoDigits? s1 s2 with
    | some yh, some yl, some mo, some d, some h, some mi, some sec =>
      let y : Int := (100 * yh + yl : Nat)
      if 1 ≤ mo ∧ mo ≤ 12 ∧ 1 ≤ d ∧ d ≤ daysIn y mo ∧ h < 24 ∧ mi < 60 ∧ sec < 60 then
        let (nsec, zone) :=
          match rest with
          | '.' :: c :: more => if c.isDigit then fraction 1000000000 0 (c :: more) else (0, rest)
          | _ => (0, rest)
        match zoneOffset? zone with
        | some off =>
          some ((daysSinceZero y mo d * 86400 + (3600 * h + 60 * mi + sec : Nat) - off)
            * 1000000000 + nsec)
        | none => none
      else none
    | _, _, _, _, _, _, _ => none
  | _ => none

/-- A natural number in decimal, padded with zeros to at least `width`
digits. -/
def pad (width n : Nat) : String :=
  let ds := Nat.toDigits 10 n
  String.mk (List.replicate (width - ds.length) '0' ++ ds)

/-- The calendar date (year, month, day) of a day count since January 1 of
year 1. -/
def civil (days : Int) : Int × Nat × Nat :=
  let z := days + 306
  let era := z / 146097
  let doe := (z % 146097).toNat
  let yoe := (doe - doe / 1460 + doe / 36524 - doe / 146096) / 365
  let doy := doe - (365 * yoe + yoe / 4 - yoe / 100)
  let mp := (5 * doy + 2) / 153
  let d := doy - (153 * mp + 2) / 5 + 1
  let m := if mp < 10 then mp + 3 else mp - 9
  let y : Int := (yoe : Int) + era * 400
  (if m ≤ 2 then y + 1 else y, m, d)

/-- The year as the layout element `2006` prints it. -/
def formatYear (y : Int) : String :=
  if y < 0 then "-" ++ pad 4 y.natAbs else pad 4 y.toNat

/-- The layout `2006-01-02T15:04` applied to a UTC time. -/
def formatMinute (t : Time) : String :=
  let secs := t / 1000000000
  let (y, m, d) := civil (secs / 86400)
  let rem := (secs % 86400).toNat
  formatYear y ++ "-" ++ pad 2 m ++ "-" ++ pad 2 d ++ "T" ++ pad 2 (rem / 3600) ++ ":"
    ++ pad 2 (rem % 3600 / 60)

/-- The layout `2006-01-02 15:04:05` applied to a UTC time. -/
def formatSeconds (t : Time) : String :=
  let secs := t / 1000000000
  let (y, m, d) := civil (secs / 86400)
  let rem := (secs % 86400).toNat
  formatYear y ++ "-" ++ pad 2 m ++ "-" ++ pad 2 d ++ " " ++ pad 2 (rem / 3600) ++ ":"
    ++ pad 2 (rem % 3600 / 60) ++ ":" ++ pad 2 (rem % 60)

/-- A concrete instance of the time functions: the reader `parseRFC3339`, the
minute layout, and the display layout for the two location names that need no
zone database (the empty name and `UTC`, both UTC).  For every other name
`formatLocal` gives `none`, also where `time.LoadLocation` would succeed; this
only shortens the text of the diagnostic log line. -/
def stdTime : TimeAPI where
  parse := parseRFC3339
  format := formatMinute
  formatLocal := fun tz t => if tz = "" ∨ tz = "UTC" then some (formatSeconds t) else none

/-- Fuel that suffices for the scheduler when the interval is positive. -/
def enoughFuel (T : TimeAPI) (clock : Time) (eventLastUpdate : String) : Nat :=
  (Truncate clock Minute - Truncate (parseOrZero T eventLastUpdate) Minute).toNat + 1

/-- Fuel that suffices for every observation of a list. -/
def enoughFuelAll (T : TimeAPI) : List Observation → Nat
  | [] => 0
  | ob :: rest => max (enoughFuel T ob.clock ob.eventLastUpdate) (enoughFuelAll T rest)

/-! ## Concrete inputs -/

/-- A configuration with repeats every 15 minutes. -/
def sampleConfig : Config :=
  { APIURL := "https://api.example/alerts/31", AuthHeader := "token",
    AudioFiles := fun t => if t = "AIR" then "air.mp3" else "",
    AlertOnEmpty := "clear.mp3", TimeZone := "UTC", LogToFile := false,
    LogFilePath := "alert.log", LogLevel := 1, RepeatAudioFile := "repeat.mp3",
    EnableRepeatAudio := true, RepeatIntervalMin := 15, RequestIntervalSec := 30,
    LogToConsole := true }

/-- The ledger of a freshly started process. -/
def emptyLedger : Ledger := fun _ => none

/-- The instant 2024-01-01T10:00:00Z. -/
def t1000 : Time := 63839700000000000000

/-- A record of region 31: active and notified. -/
def activeRecord : State :=
  { IsActive := true, EventLastUpdate := "2024-01-01T10:00:00Z", EventRegion := "31",
    ActiveEventType := "AIR", Alarmed := true }

/-- A record of region 9: inactive and notified. -/
def otherRecord : State :=
  { IsActive := false, EventLastUpdate := "2023-12-31T08:00:00Z", EventRegion := "9",
    ActiveEventType := "", Alarmed := true }

/-- Successive calls of `checkAndPlayRepeatAudio` at the given readings of the
clock, each on the ledger left by the call before: the sounds of each call. -/
def runChecks (T : TimeAPI) (fuel : Nat) (config : Config) (state : State)
    (eventLastUpdate : String) : List Time → Ledger → Option (List (List Sound))
  | [], _ => some []
  | clock :: rest, ledger =>
    match checkAndPlayRepeatAudio T fuel config state eventLastUpdate clock ledger with
    | none => none
    | some (calls, ledger') =>
      match runChecks T fuel config state eventLastUpdate rest ledger' with
      | none => none
      | some more => some (sounds calls :: more)

/-- A configuration whose interval in minutes, `2^53`, makes the 64-bit product
with `time.Minute` wrap to zero. -/
def overflowConfig : Config := { sampleConfig with RepeatIntervalMin := 9007199254740992 }

/-- A configuration with repeats enabled and the interval zero. -/
def zeroIntervalConfig : Config := { sampleConfig with RepeatIntervalMin := 0 }

/-- An API record of region 31 with two active alerts of the same timestamp. -/
def tieRecord : APIResponse :=
  { RegionID := "31", RegionType := "State", RegionName := "Kyiv", RegionEngName := "Kyiv",
    LastUpdate := "2024-01-01T10:05:00Z",
    ActiveAlerts :=
      [{ RegionID := "31", RegionType := "State", Type_ := "AIR",
         LastUpdate := "2024-01-01T10:00:00Z" },
       { RegionID := "31", RegionType := "State", Type_ := "ARTILLERY",
         LastUpdate := "2024-01-01T10:00:00Z" }] }

/-- An API record of region 31 whose second active alert has a timestamp that
is not RFC 3339. -/
def malformedRecord : APIResponse :=
  { RegionID := "31", RegionType := "State", RegionName := "Kyiv", RegionEngName := "Kyiv",
    LastUpdate := "2024-01-01T10:05:00Z",
    ActiveAlerts :=
      [{ RegionID := "31", RegionType := "State", Type_ := "AIR",
         LastUpdate := "2024-01-01T10:00:00Z" },
       { RegionID := "31", RegionType := "State", Type_ := "ARTILLERY",
         LastUpdate := "not-a-time" }] }

/-- An API record of region 31 whose one active alert carries the region
identifier 150 of a district. -/
def districtAlertRecord : APIResponse :=
  { RegionID := "31", RegionType := "State", RegionName := "Kyiv", RegionEngName := "Kyiv",
    LastUpdate := "2024-01-01T10:00:00Z",
    ActiveAlerts :=
      [{ RegionID := "150", RegionType := "District", Type_ := "AIR",
         LastUpdate := "2024-01-01T10:00:00Z" }] }

/-- The same API record once the alert is over: no active alerts. -/
def quietRecord : APIResponse :=
  { RegionID := "31", RegionType := "State", RegionName := "Kyiv", RegionEngName := "Kyiv",
    LastUpdate := "2024-01-01T10:20:00Z", ActiveAlerts := [] }

/-- The record saved for the alert of `districtAlertRecord`. -/
def districtState : State :=
  { IsActive := true, EventLastUpdate := "2024-01-01T10:00:00Z", EventRegion := "150",
    ActiveEventType := "AIR", Alarmed := true }

/-- The record saved for `quietRecord` on first sight. -/
def quietState : State :=
  { IsActive := false, EventLastUpdate := "2024-01-01T10:20:00Z", EventRegion := "31",
    ActiveEventType := "", Alarmed := true }

/-! ## Lemmas on the search loop and the store -/

theorem findState_eq_none_iff (states : List State) (r : String) :
    findState states r = none ↔ ∀ s ∈ states, s.EventRegion ≠ r := by
  induction states with
  | nil => simp [findState]
  | cons s rest ih =>
    by_cases h : s.EventRegion = r
    · simp [findState, h]
    · cases hf : findState rest r with
      | none =>
        simp only [findState, h, hf, if_false]
        simpa [h] using ih.mp hf
      | some p =>
        have hne : ¬ ∀ s ∈ rest, s.EventRegion ≠ r := fun hall => by
          rw [ih.mpr hall] at hf; cases hf
        simp [findState, h, hf]
        simpa using hne

theorem findState_some_spec {states : List State} {r : String} {i : Nat} {c : State}
    (h : findState states r = some (i, c)) :
    states[i]? = some c ∧ c.EventRegion = r ∧
      ∀ j s, j < i → states[j]? = some s → s.EventRegion ≠ r := by
  induction states generalizing i with
  | nil => simp [findState] at h
  | cons s rest ih =>
    by_cases hs : s.EventRegion = r
    · simp [findState, hs] at h
      obtain ⟨rfl, rfl⟩ := h
      simp [hs]
    · cases hf : findState rest r with
      | none => simp [findState, hs, hf] at h
      | some p =>
        obtain ⟨i0, c0⟩ := p
        simp [findState, hs, hf] at h
        obtain ⟨rfl, rfl⟩ := h
        obtain ⟨h1, h2, h3⟩ := ih hf
        refine ⟨by simpa using h1, h2, ?_⟩
        intro j t hj hjt
        cases j with
        | zero => simp at hjt; subst hjt; exact hs
        | succ j => exact h3 j t (by omega) (by simpa using hjt)

theorem upsert_of_findState_none {states : List State} {r : String} (b : Bool)
    (lu ty : String) (h : findState states r = none) :
    upsert b lu r ty states = states ++ [observedRecord b lu r ty] := by
  induction states with
  | nil => rfl
  | cons s rest ih =>
    by_cases hs : s.EventRegion = r
    · simp [findState, hs] at h
    · cases hf : findState rest r with
      | none => simp [upsert, hs, ih hf]
      | some p => simp [findState, hs, hf] at h

theorem upsert_of_findState_some {states : List State} {r : String} {i : Nat} {c : State}
    (b : Bool) (lu ty : String) (h : findState states r = some (i, c)) :
    upsert b lu r ty states =
      states.set i { c with IsActive := b, EventLastUpdate := lu, ActiveEventType := ty,
                            Alarmed := true } := by
  induction states generalizing i with
  | nil => simp [findState] at h
  | cons s rest ih =>
    by_cases hs : s.EventRegion = r
    · simp [findState, hs] at h
      obtain ⟨rfl, rfl⟩ := h
      simp [upsert, hs]
    · cases hf : findState rest r with
      | none => simp [findState, hs, hf] at h
      | some p =>
        obtain ⟨i0, c0⟩ := p
        simp [findState, hs, hf] at h
        obtain ⟨rfl, rfl⟩ := h
        simp [upsert, hs, ih hf]

/-- The store saved by `ProcessStateWithRegion`, whenever the call returns on a
store that loaded, is the upsert of the observation. -/
theorem ProcessStateWithRegion_saved {T : TimeAPI} {fuel : Nat} {config : Config}
    {clock : Time} {b : Bool} {lu r ty name : String} {states : List State}
    {ledger : Ledger} {o : Outcome}
    (h : ProcessStateWithRegion T fuel config clock b lu r ty name (.ok states) ledger
      = some o) :
    o.saved = some (upsert b lu r ty states) := by
  unfold ProcessStateWithRegion at h
  cases hf : findState states r with
  | none =>
    rw [upsert_of_findState_none b lu ty hf]
    simp only [hf] at h
    cases b <;> simp at h <;> subst h <;> rfl
  | some p =>
    obtain ⟨i, c⟩ := p
    rw [upsert_of_findState_some b lu ty hf]
    simp only [hf] at h
    by_cases h1 : c.IsActive = b
    · by_cases h2 : c.Alarmed = true
      · have hc : ({ c with EventLastUpdate := lu, ActiveEventType := ty } : State) =
            { c with IsActive := b, EventLastUpdate := lu, ActiveEventType := ty,
                     Alarmed := true } := by
          cases c; simp_all
        simp only [h1, h2, bne_self_eq_false, Bool.false_eq_true, if_false, Bool.not_true] at h
        split at h
        · split at h
          · cases h
          · simp at h; subst h; simp [hc]
        · simp at h; subst h; simp [hc]
      · have h2 : c.Alarmed = false := by simpa using h2
        simp only [h1, h2, bne_self_eq_false, Bool.false_eq_true, if_false, Bool.not_false,
          if_true] at h
        simp at h; subst h
        cases c; simp_all
    · have h1 : (c.IsActive != b) = true := by simpa using h1
      simp only [h1, if_true] at h
      simp at h; subst h; rfl

/-! ## Lemmas on the ledger -/

theorem played_makeRegion {l : Ledger} {region : String} (h : l region = none)
    (r k : String) : (l.makeRegion region).played r k = l.played r k := by
  unfold Ledger.played Ledger.makeRegion
  by_cases hr : r = region
  · subst hr; simp [h]
  · simp [hr]

theorem played_record_self {l : Ledger} {region : String} (h : (l region).isSome)
    (k : String) : (l.record region k).played region k = true := by
  unfold Ledger.played Ledger.record
  cases hl : l region with
  | none => simp [hl] at h
  | some m => simp

theorem played_record_other (l : Ledger) (region key : String) (r k : String)
    (h : r ≠ region ∨ k ≠ key) : (l.record region key).played r k = l.played r k := by
  unfold Ledger.played Ledger.record
  by_cases hr : r = region
  · subst hr
    have hk : k ≠ key := by
      rcases h with h | h
      · exact absurd rfl h
      · exact h
    cases hl : l r with
    | none => simp
    | some m => simp [hk]
  · simp [hr]

/-! ## Lemmas on the loop of the scheduler -/

/-- With a positive interval the loop ends once the fuel covers the distance
from the first candidate to now; it fires exactly when now is a candidate
whose minute-key is not recorded. -/
theorem repeatLoop_pos (T : TimeAPI) (region : String) (now : Int) (d : Int)
    (hd : 0 < d) :
    ∀ (fuel : Nat) (next : Int) (ledger : Ledger), now - next ≤ fuel * d →
      (((∃ k : Nat, now = next + k * d) ∧ ledger.played region (T.format now) = false) ∧
        repeatLoop T region now d (fuel + 1) next ledger =
          some ([Call.PlayAudio Sound.RepeatAudioFile,
                 Call.Log 1 "Повітряна тривога триває (повтор)"],
                ledger.record region (T.format now))) ∨
      (¬ ((∃ k : Nat, now = next + k * d) ∧ ledger.played region (T.format now) = false) ∧
        repeatLoop T region now d (fuel + 1) next ledger = some ([], ledger)) := by
  intro fuel
  induction fuel with
  | zero =>
    intro next ledger hfuel
    have hle : now ≤ next := by simpa using hfuel
    by_cases heq : next = now
    · subst heq
      cases hp : ledger.played region (T.format next) with
      | false =>
        left
        refine ⟨⟨⟨0, by simp⟩, rfl⟩, ?_⟩
        simp [repeatLoop, Before, Equal, hp]
      | true =>
        right
        refine ⟨by simp, ?_⟩
        simp [repeatLoop, Before, Equal, hp]
    · right
      have hlt : now < next := lt_of_le_of_ne hle (Ne.symm heq)
      refine ⟨?_, ?_⟩
      · rintro ⟨⟨k, hk⟩, -⟩
        have : (0 : Int) ≤ k * d := by positivity
        omega
      · have h1 : ¬ next < now := by omega
        simp [repeatLoop, Before, Equal, h1, heq]
  | succ f ih =>
    intro next ledger hfuel
    by_cases heq : next = now
    · subst heq
      cases hp : ledger.played region (T.format next) with
      | false =>
        left
        refine ⟨⟨⟨0, by simp⟩, rfl⟩, ?_⟩
        simp [repeatLoop, Before, Equal, hp]
      | true =>
        right
        refine ⟨by simp, ?_⟩
        simp [repeatLoop, Before, Equal, hp]
    · by_cases hlt : next < now
      · have hstep : repeatLoop T region now d (f + 1 + 1) next ledger =
            repeatLoop T region now d (f + 1) (next + d) ledger := by
          conv_lhs => unfold repeatLoop
          simp [Before, Equal, hlt, heq, Add]
        have hgrid : (∃ k : Nat, now = next + k * d) ↔ (∃ k : Nat, now = next + d + k * d) := by
          constructor
          · rintro ⟨k, hk⟩
            cases k with
            | zero => simp at hk; omega
            | succ k => exact ⟨k, by rw [hk]; push_cast; ring⟩
          · rintro ⟨k, hk⟩
            exact ⟨k + 1, by rw [hk]; push_cast; ring⟩
        have hf : now - (next + d) ≤ f * d := by
          have : ((f + 1 : Nat) : Int) * d = f * d + d := by push_cast; ring
          omega
        rw [hstep, hgrid]
        exact ih (next + d) ledger hf
      · right
        have hgt : now < next := by omega
        refine ⟨?_, ?_⟩
        · rintro ⟨⟨k, hk⟩, -⟩
          have : (0 : Int) ≤ k * d := by positivity
          omega
        · simp [repeatLoop, Before, Equal, hlt, heq]

/-- With a non-positive interval and a first candidate before now, the loop
does not end: no amount of fuel suffices. -/
theorem repeatLoop_diverges (T : TimeAPI) (region : String) (now : Int) (d : Int)
    (hd : d ≤ 0) :
    ∀ (fuel : Nat) (next : Int) (ledger : Ledger), next < now →
      repeatLoop T region now d fuel next ledger = none := by
  intro fuel
  induction fuel with
  | zero => intro next ledger _; rfl
  | succ f ih =>
    intro next ledger hlt
    have hne : next ≠ now := by omega
    unfold repeatLoop
    simp only [Before, Equal, hlt, hne, decide_True, decide_False, Bool.true_or, if_true,
      Bool.false_eq_true, if_false, Add]
    exact ih (next + d) ledger (by omega)

/-! ## Lemmas on the scheduler and on termination -/

/-- The scheduler with a positive interval and a parseable anchor: it returns
once the fuel covers the distance from the first candidate to now, fires
exactly on a candidate minute that is not recorded, and records it. -/
theorem checkAndPlayRepeatAudio_pos {T : TimeAPI} {config : Config} {state : State}
    {s : String} {a clock : Int} {ledger : Ledger}
    (hp : T.parse s = some a) (hd : 0 < repeatInterval config) (fuel : Nat)
    (hfuel : Truncate clock Minute - (Truncate a Minute + repeatInterval config)
      ≤ fuel * repeatInterval config) :
    ∃ calls ledger',
      checkAndPlayRepeatAudio T (fuel + 1) config state s clock ledger = some (calls, ledger') ∧
      ((((∃ k : Nat, Truncate clock Minute
              = Truncate a Minute + (k + 1) * repeatInterval config) ∧
          ledger.played state.EventRegion (T.format (Truncate clock Minute)) = false) ∧
        calls = [Call.PlayAudio Sound.RepeatAudioFile,
                 Call.Log 1 "Повітряна тривога триває (повтор)"] ∧
        ledger'.played state.EventRegion (T.format (Truncate clock Minute)) = true ∧
        ∀ r k, (r ≠ state.EventRegion ∨ k ≠ T.format (Truncate clock Minute)) →
          ledger'.played r k = ledger.played r k) ∨
       (¬ ((∃ k : Nat, Truncate clock Minute
              = Truncate a Minute + (k + 1) * repeatInterval config) ∧
          ledger.played state.EventRegion (T.format (Truncate clock Minute)) = false) ∧
        calls = [] ∧ ∀ r k, ledger'.played r k = ledger.played r k)) := by
  have hgrid : (∃ k : Nat, Truncate clock Minute
        = Truncate a Minute + repeatInterval config + k * repeatInterval config) ↔
      (∃ k : Nat, Truncate clock Minute
        = Truncate a Minute + (k + 1) * repeatInterval config) := by
    constructor <;> rintro ⟨k, hk⟩ <;> exact ⟨k, by rw [hk]; ring⟩
  have key : ∀ l0 : Ledger, (l0 state.EventRegion).isSome →
      (∀ r k, l0.played r k = ledger.played r k) →
      ∃ calls ledger',
        repeatLoop T state.EventRegion (Truncate clock Minute) (repeatInterval config)
          (fuel + 1) (Truncate a Minute + repeatInterval config) l0 = some (calls, ledger') ∧
        ((((∃ k : Nat, Truncate clock Minute
                = Truncate a Minute + (k + 1) * repeatInterval config) ∧
            ledger.played state.EventRegion (T.format (Truncate clock Minute)) = false) ∧
          calls = [Call.PlayAudio Sound.RepeatAudioFile,
                   Call.Log 1 "Повітряна тривога триває (повтор)"] ∧
          ledger'.played state.EventRegion (T.format (Truncate clock Minute)) = true ∧
          ∀ r k, (r ≠ state.EventRegion ∨ k ≠ T.format (Truncate clock Minute)) →
            ledger'.played r k = ledger.played r k) ∨
         (¬ ((∃ k : Nat, Truncate clock Minute
                = Truncate a Minute + (k + 1) * repeatInterval config) ∧
            ledger.played state.EventRegion (T.format (Truncate clock Minute)) = false) ∧
          calls = [] ∧ ∀ r k, ledger'.played r k = ledger.played r k)) := by
    intro l0 hsome hsame
    rcases repeatLoop_pos T state.EventRegion (Truncate clock Minute) (repeatInterval config)
        hd fuel (Truncate a Minute + repeatInterval config) l0 hfuel with ⟨hdue, hres⟩ | ⟨hnot, hres⟩
    · rw [hgrid, hsame] at hdue
      refine ⟨_, _, hres, Or.inl ⟨hdue, rfl, played_record_self hsome _, ?_⟩⟩
      intro r k hrk
      rw [played_record_other l0 _ _ r k hrk, hsame]
    · rw [hgrid, hsame] at hnot
      exact ⟨_, _, hres, Or.inr ⟨hnot, rfl, hsame⟩⟩
  unfold checkAndPlayRepeatAudio
  simp only [hp, Add]
  cases hl : ledger state.EventRegion with
  | none =>
    simp only [Option.isNone_none, if_true]
    exact key _ (by simp [Ledger.makeRegion]) (played_makeRegion hl)
  | some m =>
    simp only [Option.isNone_some, Bool.false_eq_true, if_false]
    exact key _ (by simp [hl]) (fun _ _ => rfl)

theorem fuel_covers (x y d : Int) (f : Nat) (hd : 0 < d) (h : (x - y).toNat + 1 ≤ f + 1) :
    x - (y + d) ≤ f * d := by
  have h1 : x - y ≤ (f : Int) := by omega
  have h0 : (0 : Int) ≤ f := Int.ofNat_nonneg f
  nlinarith

theorem checkAndPlayRepeatAudio_returns (T : TimeAPI) (config : Config) (state : State)
    (s : String) (clock : Int) (ledger : Ledger) (hd : 0 < repeatInterval config)
    (fuel : Nat) (hfuel : enoughFuel T clock s ≤ fuel) :
    ∃ res, checkAndPlayRepeatAudio T fuel config state s clock ledger = some res := by
  cases hp : T.parse s with
  | none => exact ⟨([], ledger), by simp [checkAndPlayRepeatAudio, hp]⟩
  | some a =>
    obtain ⟨f, rfl⟩ : ∃ f, fuel = f + 1 := ⟨fuel - 1, by unfold enoughFuel at hfuel; omega⟩
    have hpz : parseOrZero T s = a := by simp [parseOrZero, hp]
    unfold enoughFuel at hfuel
    rw [hpz] at hfuel
    obtain ⟨calls, ledger', h, -⟩ :=
      @checkAndPlayRepeatAudio_pos T config state s a clock ledger hp hd f
        (fuel_covers _ _ _ f hd hfuel)
    exact ⟨_, h⟩

/-! ## The branches of the state machine -/

theorem ProcessStateWithRegion_firstSight (T : TimeAPI) (fuel : Nat) (config : Config)
    (clock : Time) (b : Bool) (lu r ty name : String) (states : List State)
    (ledger : Ledger) (hf : findState states r = none) :
    ProcessStateWithRegion T fuel config clock b lu r ty name (.ok states) ledger =
      some ⟨if b then
              [Call.Log 1 ("Початок повітряної тривоги (" ++ ty ++ ") в регіоні: " ++ name),
               Call.PlayAudio (Sound.AudioFiles ty)]
            else [],
            some (states ++ [observedRecord b lu r ty]), ledger, .firstSight⟩ := by
  cases b <;> simp [ProcessStateWithRegion, hf, observedRecord]

theorem ProcessStateWithRegion_statusChanged (T : TimeAPI) (fuel : Nat) (config : Config)
    (clock : Time) (b : Bool) (lu r ty name : String) (states : List State)
    (ledger : Ledger) {i : Nat} {c : State} (hf : findState states r = some (i, c))
    (hb : c.IsActive ≠ b) :
    ProcessStateWithRegion T fuel config clock b lu r ty name (.ok states) ledger =
      some ⟨if b then
              [Call.Log 1 ("Початок повітряної тривоги (" ++ ty ++ ") в регіоні: " ++ name),
               Call.PlayAudio (Sound.AudioFiles ty)]
            else
              [Call.Log 1 ("Кінець повітряної тривоги в регіоні: " ++ name),
               Call.PlayAudio Sound.AlertOnEmpty],
            some (states.set i { c with IsActive := b, EventLastUpdate := lu,
                                        ActiveEventType := ty, Alarmed := true }),
            ledger, .statusChanged⟩ := by
  have h1 : (c.IsActive != b) = true := by simpa using hb
  simp [ProcessStateWithRegion, hf, h1]

theorem ProcessStateWithRegion_notYetNotified (T : TimeAPI) (fuel : Nat) (config : Config)
    (clock : Time) (b : Bool) (lu r ty name : String) (states : List State)
    (ledger : Ledger) {i : Nat} {c : State} (hf : findState states r = some (i, c))
    (hb : c.IsActive = b) (ha : c.Alarmed = false) :
    ProcessStateWithRegion T fuel config clock b lu r ty name (.ok states) ledger =
      some ⟨if b then
              [Call.Log 1 "Повітряна тривога триває", Call.PlayAudio (Sound.AudioFiles ty)]
            else [Call.PlayAudio Sound.AlertOnEmpty],
            some (states.set i { c with IsActive := b, EventLastUpdate := lu,
                                        ActiveEventType := ty, Alarmed := true }),
            ledger, .notYetNotified⟩ := by
  subst hb
  simp [ProcessStateWithRegion, hf, ha]

theorem ProcessStateWithRegion_unchanged (T : TimeAPI) (fuel : Nat) (config : Config)
    (clock : Time) (b : Bool) (lu r ty name : String) (states : List State)
    (ledger : Ledger) {i : Nat} {c : State} (hf : findState states r = some (i, c))
    (hb : c.IsActive = b) (ha : c.Alarmed = true) :
    ProcessStateWithRegion T fuel config clock b lu r ty name (.ok states) ledger =
      if b && config.EnableRepeatAudio then
        match checkAndPlayRepeatAudio T fuel config
            { c with EventLastUpdate := lu, ActiveEventType := ty } lu clock ledger with
        | none => none
        | some (calls, ledger') =>
          some ⟨calls,
                some (states.set i { c with IsActive := b, EventLastUpdate := lu,
                                            ActiveEventType := ty, Alarmed := true }),
                ledger', .unchanged⟩
      else
        some ⟨[],
              some (states.set i { c with IsActive := b, EventLastUpdate := lu,
                                          ActiveEventType := ty, Alarmed := true }),
              ledger, .unchanged⟩ := by
  subst hb
  simp only [ProcessStateWithRegion, hf, ha, bne_self_eq_false, Bool.false_eq_true, if_false,
    Bool.not_true]

/-- The call `ProcessStateWithRegion` returns when repeats are disabled or the
interval is positive, given enough fuel for the scheduler. -/
theorem ProcessStateWithRegion_returns (T : TimeAPI) (config : Config) (clock : Time)
    (b : Bool) (lu r ty name : String) (loaded : Except String (List State))
    (ledger : Ledger)
    (hvalid : config.EnableRepeatAudio = false ∨ 0 < repeatInterval config)
    (fuel : Nat) (hfuel : enoughFuel T clock lu ≤ fuel) :
    ∃ o, ProcessStateWithRegion T fuel config clock b lu r ty name loaded ledger = some o := by
  cases loaded with
  | error err => exact ⟨_, rfl⟩
  | ok states =>
    cases hf : findState states r with
    | none => exact ⟨_, ProcessStateWithRegion_firstSight T fuel config clock b lu r ty name states ledger hf⟩
    | some p =>
      obtain ⟨i, c⟩ := p
      by_cases hb : c.IsActive = b
      · cases ha : c.Alarmed with
        | false =>
          exact ⟨_, ProcessStateWithRegion_notYetNotified T fuel config clock b lu r ty name
            states ledger hf hb ha⟩
        | true =>
          rw [ProcessStateWithRegion_unchanged T fuel config clock b lu r ty name states
            ledger hf hb ha]
          by_cases hcond : (b && config.EnableRepeatAudio) = true
          · rcases hvalid with hoff | hpos
            · simp [hoff] at hcond
            · obtain ⟨res, hres⟩ := checkAndPlayRepeatAudio_returns T config
                { c with EventLastUpdate := lu, ActiveEventType := ty } lu clock
                ledger hpos fuel hfuel
              rw [if_pos hcond, hres]
              exact ⟨_, rfl⟩
          · rw [if_neg hcond]
            exact ⟨_, rfl⟩
      · exact ⟨_, ProcessStateWithRegion_statusChanged T fuel config clock b lu r ty name
          states ledger hf hb⟩

/-! ## Lemmas on the upsert -/

theorem upsert_length (b : Bool) (lu r ty : String) (states : List State) :
    states.length ≤ (upsert b lu r ty states).length := by
  induction states with
  | nil => simp [upsert]
  | cons s rest ih =>
    by_cases hs : s.EventRegion = r
    · simp [upsert, hs]
    · simpa [upsert, hs] using ih

theorem upsert_other (b : Bool) (lu r ty : String) (states : List State) :
    ∀ (j : Nat) (s : State), states[j]? = some s → s.EventRegion ≠ r →
      (upsert b lu r ty states)[j]? = some s := by
  induction states with
  | nil => intro j s h; simp at h
  | cons t rest ih =>
    intro j s h hne
    by_cases ht : t.EventRegion = r
    · cases j with
      | zero =>
        simp at h
        subst h
        exact absurd ht hne
      | succ j => simpa [upsert, ht] using h
    · cases j with
      | zero => simpa [upsert, ht] using h
      | succ j =>
        simp only [upsert, ht, if_false, List.getElem?_cons_succ]
        exact ih j s (by simpa using h) hne

theorem upsert_region_kept (b : Bool) (lu r ty : String) (states : List State) :
    ∀ (j : Nat) (s : State), states[j]? = some s →
      ∃ s', (upsert b lu r ty states)[j]? = some s' ∧ s'.EventRegion = s.EventRegion := by
  induction states with
  | nil => intro j s h; simp at h
  | cons t rest ih =>
    intro j s h
    by_cases ht : t.EventRegion = r
    · cases j with
      | zero =>
        simp at h
        subst h
        exact ⟨{ t with IsActive := b, EventLastUpdate := lu, ActiveEventType := ty,
                        Alarmed := true }, by simp [upsert, ht], rfl⟩
      | succ j => exact ⟨s, by simpa [upsert, ht] using h, rfl⟩
    · cases j with
      | zero => exact ⟨s, by simpa [upsert, ht] using h, rfl⟩
      | succ j =>
        simp only [upsert, ht, if_false, List.getElem?_cons_succ]
        exact ih j s (by simpa using h)

theorem upsert_alarmed (b : Bool) (lu r ty : String) (states : List State)
    (h : ∀ s ∈ states, s.Alarmed = true) :
    ∀ s ∈ upsert b lu r ty states, s.Alarmed = true := by
  induction states with
  | nil => intro s hs; simp [upsert, observedRecord] at hs; subst hs; rfl
  | cons t rest ih =>
    by_cases ht : t.EventRegion = r
    · intro s hs
      simp only [upsert, ht, if_true, List.mem_cons] at hs
      rcases hs with rfl | hs
      · rfl
      · exact h s (List.mem_cons_of_mem _ hs)
    · intro s hs
      simp only [upsert, ht, if_false, List.mem_cons] at hs
      rcases hs with rfl | hs
      · exact h s (List.mem_cons_self _ _)
      · exact ih (fun x hx => h x (List.mem_cons_of_mem _ hx)) s hs

theorem findState_upsert (b : Bool) (lu r ty : String) (states : List State) :
    ∃ i c, findState (upsert b lu r ty states) r = some (i, c) ∧
      c.IsActive = b ∧ c.Alarmed = true ∧
      (∀ j d, findState states r = some (j, d) → j = i) := by
  induction states with
  | nil =>
    exact ⟨0, observedRecord b lu r ty, by simp [upsert, findState, observedRecord], rfl, rfl,
      by simp [findState]⟩
  | cons t rest ih =>
    by_cases ht : t.EventRegion = r
    · exact ⟨0, { t with IsActive := b, EventLastUpdate := lu, ActiveEventType := ty,
                         Alarmed := true },
        by simp [upsert, findState, ht], rfl, rfl, by simp [findState, ht]⟩
    · obtain ⟨i, c, h1, h2, h3, h4⟩ := ih
      refine ⟨i + 1, c, by simp [upsert, findState, ht, h1], h2, h3, ?_⟩
      intro j d hjd
      cases hf : findState rest r with
      | none => simp [findState, ht, hf] at hjd
      | some p =>
        obtain ⟨j0, d0⟩ := p
        simp [findState, ht, hf] at hjd
        have := h4 j0 d0 hf
        omega

/-- When the return point of lines 288-298 is taken, the store holds a record
of the region with the observed status and `Alarmed` false. -/
theorem notYetNotified_only_if {T : TimeAPI} {fuel : Nat} {config : Config}
    {clock : Time} {b : Bool} {lu r ty name : String} {states : List State}
    {ledger : Ledger} {o : Outcome}
    (h : ProcessStateWithRegion T fuel config clock b lu r ty name (.ok states) ledger
      = some o)
    (hb : o.branch = .notYetNotified) :
    ∃ c ∈ states, c.EventRegion = r ∧ c.IsActive = b ∧ c.Alarmed = false := by
  cases hf : findState states r with
  | none =>
    rw [ProcessStateWithRegion_firstSight T fuel config clock b lu r ty name states ledger hf]
      at h
    simp at h; subst h; simp at hb
  | some p =>
    obtain ⟨i, c⟩ := p
    obtain ⟨hi, hr, -⟩ := findState_some_spec hf
    have hmem : c ∈ states := List.getElem?_mem hi
    by_cases hact : c.IsActive = b
    · cases ha : c.Alarmed with
      | false => exact ⟨c, hmem, hr, hact, ha⟩
      | true =>
        rw [ProcessStateWithRegion_unchanged T fuel config clock b lu r ty name states
          ledger hf hact ha] at h
        split at h
        · split at h
          · cases h
          · simp at h; subst h; simp at hb
        · simp at h; subst h; simp at hb
    · rw [ProcessStateWithRegion_statusChanged T fuel config clock b lu r ty name states
        ledger hf hact] at h
      simp at h; subst h; simp at hb

theorem Reachable.all_alarmed {states : List State} (h : Reachable states) :
    ∀ s ∈ states, s.Alarmed = true := by
  induction h with
  | empty => intro s hs; simp at hs
  | step _ hstep hsaved ih =>
    have := ProcessStateWithRegion_saved hstep
    rw [hsaved] at this
    cases this
    exact upsert_alarmed _ _ _ _ _ ih

/-! ## Lemmas on notifications -/

theorem repeatLoop_startEnd (T : TimeAPI) (region : String) (now : Int) (d : Int) :
    ∀ (fuel : Nat) (next : Int) (ledger : Ledger) (calls : List Call) (ledger' : Ledger),
      repeatLoop T region now d fuel next ledger = some (calls, ledger') →
      startEnd calls = [] := by
  intro fuel
  induction fuel with
  | zero => intro next ledger calls ledger' h; simp [repeatLoop] at h
  | succ f ih =>
    intro next ledger calls ledger' h
    unfold repeatLoop at h
    split at h
    · simp only at h
      split at h
      · split at h
        · simp at h; obtain ⟨rfl, -⟩ := h; rfl
        · simp at h; obtain ⟨rfl, -⟩ := h; rfl
      · exact ih _ _ _ _ h
    · simp at h; obtain ⟨rfl, -⟩ := h; rfl

theorem checkAndPlayRepeatAudio_startEnd {T : TimeAPI} {fuel : Nat} {config : Config}
    {state : State} {s : String} {clock : Time} {ledger : Ledger} {calls : List Call}
    {ledger' : Ledger}
    (h : checkAndPlayRepeatAudio T fuel config state s clock ledger = some (calls, ledger')) :
    startEnd calls = [] := by
  unfold checkAndPlayRepeatAudio at h
  split at h
  · simp at h; obtain ⟨rfl, -⟩ := h; rfl
  · exact repeatLoop_startEnd T _ _ _ _ _ _ _ _ h

/-- On a store whose record of the region is notified with the observed status,
a call that returns plays no start or end sound and only refreshes the
timestamp and the event type of that record. -/
theorem ProcessStateWithRegion_notified {T : TimeAPI} {fuel : Nat} {config : Config}
    {clock : Time} {b : Bool} {lu r ty name : String} {states : List State}
    {ledger : Ledger} {o : Outcome} {i : Nat} {c : State}
    (hf : findState states r = some (i, c)) (hb : c.IsActive = b) (ha : c.Alarmed = true)
    (h : ProcessStateWithRegion T fuel config clock b lu r ty name (.ok states) ledger
      = some o) :
    startEnd o.calls = [] ∧
    o.saved = some (states.set i { c with EventLastUpdate := lu, ActiveEventType := ty }) := by
  have hc : ({ c with IsActive := b, EventLastUpdate := lu, ActiveEventType := ty,
                      Alarmed := true } : State) =
      { c with EventLastUpdate := lu, ActiveEventType := ty } := by
    cases c; simp_all
  rw [ProcessStateWithRegion_unchanged T fuel config clock b lu r ty name states ledger hf hb
    ha, hc] at h
  split at h
  · cases hcheck : checkAndPlayRepeatAudio T fuel config
        { c with EventLastUpdate := lu, ActiveEventType := ty } lu clock ledger with
    | none => simp [hcheck] at h
    | some res =>
      obtain ⟨calls, ledger'⟩ := res
      simp [hcheck] at h
      subst h
      exact ⟨checkAndPlayRepeatAudio_startEnd hcheck, rfl⟩
  · simp at h; subst h; exact ⟨rfl, rfl⟩

/-- Any call that returns plays at most one start or end sound. -/
theorem ProcessStateWithRegion_startEnd_le {T : TimeAPI} {fuel : Nat} {config : Config}
    {clock : Time} {b : Bool} {lu r ty name : String} {states : List State}
    {ledger : Ledger} {o : Outcome}
    (h : ProcessStateWithRegion T fuel config clock b lu r ty name (.ok states) ledger
      = some o) :
    (startEnd o.calls).length ≤ 1 := by
  cases hf : findState states r with
  | none =>
    rw [ProcessStateWithRegion_firstSight T fuel config clock b lu r ty name states ledger hf]
      at h
    simp at h; subst h
    cases b <;> simp [startEnd, sounds, Sound.isStartEnd]
  | some p =>
    obtain ⟨i, c⟩ := p
    by_cases hact : c.IsActive = b
    · cases ha : c.Alarmed with
      | false =>
        rw [ProcessStateWithRegion_notYetNotified T fuel config clock b lu r ty name states
          ledger hf hact ha] at h
        simp at h; subst h
        cases b <;> simp [startEnd, sounds, Sound.isStartEnd]
      | true => simp [(ProcessStateWithRegion_notified hf hact ha h).1]
    · rw [ProcessStateWithRegion_statusChanged T fuel config clock b lu r ty name states
        ledger hf hact] at h
      simp at h; subst h
      cases b <;> simp [startEnd, sounds, Sound.isStartEnd]

theorem runObservations_cons {T : TimeAPI} {fuel : Nat} {config : Config} {ob : Observation}
    {rest : List Observation} {states : List State} {ledger : Ledger} {outs : List Outcome}
    (h : runObservations T fuel config (ob :: rest) states ledger = some outs) :
    ∃ o os, processObservation T fuel config ob states ledger = some o ∧
      runObservations T fuel config rest (o.saved.getD states) o.ledger = some os ∧
      outs = o :: os := by
  unfold runObservations at h
  cases h1 : processObservation T fuel config ob states ledger with
  | none => simp [h1] at h
  | some o =>
    cases h2 : runObservations T fuel config rest (o.saved.getD states) o.ledger with
    | none => simp [h1, h2] at h
    | some os =>
      simp [h1, h2] at h
      exact ⟨o, os, rfl, h2, h.symm⟩

/-- After a call that returns, the store holds a notified record of the
observed region with the observed status. -/
theorem processObservation_leaves_notified {T : TimeAPI} {fuel : Nat} {config : Config}
    {ob : Observation} {states : List State} {ledger : Ledger} {o : Outcome}
    (h : processObservation T fuel config ob states ledger = some o) :
    ∃ i c, findState (o.saved.getD states) ob.eventRegion = some (i, c) ∧
      c.IsActive = ob.isActive ∧ c.Alarmed = true := by
  have hs := ProcessStateWithRegion_saved h
  obtain ⟨i, c, h1, h2, h3, -⟩ :=
    findState_upsert ob.isActive ob.eventLastUpdate ob.eventRegion ob.activeEventType states
  exact ⟨i, c, by simpa [hs] using h1, h2, h3⟩

/-- From a store that holds a notified record of the region with status `b`,
observations of that region with status `b` play no start or end sound. -/
theorem runObservations_quiet (T : TimeAPI) (fuel : Nat) (config : Config) (r : String)
    (b : Bool) :
    ∀ (obs : List Observation), (∀ ob ∈ obs, ob.eventRegion = r ∧ ob.isActive = b) →
      ∀ (states : List State) (ledger : Ledger) (i : Nat) (c : State) (outs : List Outcome),
        findState states r = some (i, c) → c.IsActive = b → c.Alarmed = true →
        runObservations T fuel config obs states ledger = some outs →
        ∀ o ∈ outs, startEnd o.calls = [] := by
  intro obs
  induction obs with
  | nil =>
    intro _ states ledger i c outs _ _ _ h
    simp [runObservations] at h
    subst h
    simp
  | cons ob rest ih =>
    intro hall states ledger i c outs hf hb ha h
    obtain ⟨o, os, h1, h2, rfl⟩ := runObservations_cons h
    obtain ⟨hr, hact⟩ := hall ob (List.mem_cons_self _ _)
    have hq : startEnd o.calls = [] := by
      unfold processObservation at h1
      rw [hr, hact] at h1
      exact (ProcessStateWithRegion_notified hf hb ha h1).1
    obtain ⟨i', c', hf', hb', ha'⟩ := processObservation_leaves_notified h1
    rw [hr] at hf'
    rw [hact] at hb'
    intro o' ho'
    rcases List.mem_cons.mp ho' with rfl | hmem
    · exact hq
    · exact ih (fun x hx => hall x (List.mem_cons_of_mem _ hx)) _ _ i' c' os hf' hb' ha' h2
        o' hmem

/-- A run returns when repeats are disabled or the interval is positive, given
enough fuel for each observation. -/
theorem runObservations_returns (T : TimeAPI) (config : Config)
    (hvalid : config.EnableRepeatAudio = false ∨ 0 < repeatInterval config) (fuel : Nat) :
    ∀ (obs : List Observation), enoughFuelAll T obs ≤ fuel →
      ∀ (states : List State) (ledger : Ledger),
        ∃ outs, runObservations T fuel config obs states ledger = some outs ∧
          outs.length = obs.length := by
  intro obs
  induction obs with
  | nil => intro _ states ledger; exact ⟨[], rfl, rfl⟩
  | cons ob rest ih =>
    intro hfuel states ledger
    have h1 : enoughFuel T ob.clock ob.eventLastUpdate ≤ fuel :=
      le_trans (le_max_left _ _) hfuel
    have h2 : enoughFuelAll T rest ≤ fuel := le_trans (le_max_right _ _) hfuel
    obtain ⟨o, ho⟩ := ProcessStateWithRegion_returns T config ob.clock ob.isActive
      ob.eventLastUpdate ob.eventRegion ob.activeEventType ob.regionName (.ok states) ledger
      hvalid fuel h1
    obtain ⟨os, hos, hlen⟩ := ih h2 (o.saved.getD states) o.ledger
    refine ⟨o :: os, ?_, by simp [hlen]⟩
    have ho' : processObservation T fuel config ob states ledger = some o := ho
    simp [runObservations, ho', hos]

theorem sum_startEnd_quiet (outs : List Outcome)
    (h : ∀ o ∈ outs, startEnd o.calls = []) :
    (outs.map (fun o => (startEnd o.calls).length)).sum = 0 := by
  induction outs with
  | nil => rfl
  | cons o os ih =>
    have h1 := h o (List.mem_cons_self _ _)
    have h2 := ih (fun x hx => h x (List.mem_cons_of_mem _ hx))
    simp [h1, h2]

/-! ## Lemmas on the interval -/

theorem wrapInt64_of_bounds (x : Int) (h1 : -9223372036854775808 ≤ x)
    (h2 : x < 9223372036854775808) : wrapInt64 x = x := by
  unfold wrapInt64
  norm_num
  omega

theorem minutes_pos (n : Int) (hmin : 1 ≤ n) : 0 < n * Minute := by
  unfold Minute
  omega

theorem repeatInterval_of_bounds (config : Config) (hmin : 1 ≤ config.RepeatIntervalMin)
    (hmax : config.RepeatIntervalMin ≤ 153722867) :
    repeatInterval config = config.RepeatIntervalMin * Minute ∧ 0 < repeatInterval config := by
  have h : repeatInterval config = config.RepeatIntervalMin * Minute := by
    unfold repeatInterval
    apply wrapInt64_of_bounds
    · unfold Minute; omega
    · unfold Minute; omega
  refine ⟨h, ?_⟩
  rw [h]
  exact minutes_pos _ hmin

theorem grid_iff (now ta d : Int) :
    (∃ k : Nat, now = ta + (k + 1) * d) ↔ (∃ k : Int, 1 ≤ k ∧ now = ta + k * d) := by
  constructor
  · rintro ⟨k, hk⟩
    exact ⟨k + 1, by omega, by rw [hk]⟩
  · rintro ⟨k, hk1, hk⟩
    refine ⟨(k - 1).toNat, ?_⟩
    have : (((k - 1).toNat : Nat) : Int) = k - 1 := Int.toNat_of_nonneg (by omega)
    rw [hk, this]
    ring

theorem checkAndPlayRepeatAudio_spec {T : TimeAPI} {config : Config} {state : State}
    {s : String} {a clock : Int} {ledger : Ledger}
    (hp : T.parse s = some a) (hd : 0 < repeatInterval config) (fuel : Nat)
    (hfuel : enoughFuel T clock s ≤ fuel) :
    ∃ calls ledger',
      checkAndPlayRepeatAudio T fuel config state s clock ledger = some (calls, ledger') ∧
      ((((∃ k : Nat, Truncate clock Minute
              = Truncate a Minute + (k + 1) * repeatInterval config) ∧
          ledger.played state.EventRegion (T.format (Truncate clock Minute)) = false) ∧
        calls = [Call.PlayAudio Sound.RepeatAudioFile,
                 Call.Log 1 "Повітряна тривога триває (повтор)"] ∧
        ledger'.played state.EventRegion (T.format (Truncate clock Minute)) = true ∧
        ∀ r k, (r ≠ state.EventRegion ∨ k ≠ T.format (Truncate clock Minute)) →
          ledger'.played r k = ledger.played r k) ∨
       (¬ ((∃ k : Nat, Truncate clock Minute
              = Truncate a Minute + (k + 1) * repeatInterval config) ∧
          ledger.played state.EventRegion (T.format (Truncate clock Minute)) = false) ∧
        calls = [] ∧ ∀ r k, ledger'.played r k = ledger.played r k)) := by
  obtain ⟨f, rfl⟩ : ∃ f, fuel = f + 1 := ⟨fuel - 1, by unfold enoughFuel at hfuel; omega⟩
  have hpz : parseOrZero T s = a := by simp [parseOrZero, hp]
  unfold enoughFuel at hfuel
  rw [hpz] at hfuel
  exact checkAndPlayRepeatAudio_pos hp hd f (fuel_covers _ _ _ f hd hfuel)

/-! ## Lemmas on the selection of the earliest alert -/

theorem earliestAlert_cons (T : TimeAPI) (cur a : Alert) (rest : List Alert) :
    earliestAlert T cur (a :: rest) =
      earliestAlert T
        (if Before (parseOrZero T a.LastUpdate) (parseOrZero T cur.LastUpdate) then a else cur)
        rest := by
  simp [earliestAlert]

/-- The invariant of the selection loop: the current choice is the first
alert of minimal time among the alerts seen so far. -/
theorem earliestAlert_fold (T : TimeAPI) :
    ∀ (rest pre : List Alert) (cur : Alert) (i : Nat),
      pre[i]? = some cur →
      (∀ (j : Nat) (x : Alert), j < i → pre[j]? = some x →
        parseOrZero T cur.LastUpdate < parseOrZero T x.LastUpdate) →
      (∀ x ∈ pre, parseOrZero T cur.LastUpdate ≤ parseOrZero T x.LastUpdate) →
      ∃ (i' : Nat), (pre ++ rest)[i']? = some (earliestAlert T cur rest) ∧
        (∀ (j : Nat) (x : Alert), j < i' → (pre ++ rest)[j]? = some x →
          parseOrZero T (earliestAlert T cur rest).LastUpdate < parseOrZero T x.LastUpdate) ∧
        (∀ x ∈ pre ++ rest,
          parseOrZero T (earliestAlert T cur rest).LastUpdate ≤ parseOrZero T x.LastUpdate) := by
  intro rest
  induction rest with
  | nil =>
    intro pre cur i hi hlt hle
    exact ⟨i, by simpa [earliestAlert] using hi, by simpa [earliestAlert] using hlt,
      by simpa [earliestAlert] using hle⟩
  | cons a rest ih =>
    intro pre cur i hi hlt hle
    have hilt : i < pre.length := by
      by_contra hcon
      rw [List.getElem?_eq_none (by omega)] at hi
      cases hi
    rw [earliestAlert_cons]
    have happ : pre ++ a :: rest = (pre ++ [a]) ++ rest := by simp
    rw [happ]
    by_cases hb : parseOrZero T a.LastUpdate < parseOrZero T cur.LastUpdate
    · have hB : Before (parseOrZero T a.LastUpdate) (parseOrZero T cur.LastUpdate) = true := by
        simp [Before, hb]
      rw [hB, if_pos rfl]
      apply ih (pre ++ [a]) a pre.length
      · simp
      · intro j x hj hjx
        rw [List.getElem?_append_left hj] at hjx
        exact lt_of_lt_of_le hb (hle x (List.getElem?_mem hjx))
      · intro x hx
        rcases List.mem_append.mp hx with hx | hx
        · exact le_of_lt (lt_of_lt_of_le hb (hle x hx))
        · simp at hx; subst hx; exact le_refl _
    · have hB : Before (parseOrZero T a.LastUpdate) (parseOrZero T cur.LastUpdate) = false := by
        simp [Before, hb]
      rw [hB]
      simp only [Bool.false_eq_true, if_false]
      apply ih (pre ++ [a]) cur i
      · rw [List.getElem?_append_left hilt]; exact hi
      · intro j x hj hjx
        rw [List.getElem?_append_left (by omega)] at hjx
        exact hlt j x hj hjx
      · intro x hx
        rcases List.mem_append.mp hx with hx | hx
        · exact hle x hx
        · simp at hx; subst hx; exact not_lt.mp hb

theorem earliestAlert_first (T : TimeAPI) (a : Alert) (rest : List Alert) :
    ∃ (i : Nat), (a :: rest)[i]? = some (earliestAlert T a (a :: rest)) ∧
      (∀ (j : Nat) (x : Alert), j < i → (a :: rest)[j]? = some x →
        parseOrZero T (earliestAlert T a (a :: rest)).LastUpdate
          < parseOrZero T x.LastUpdate) ∧
      (∀ x ∈ a :: rest,
        parseOrZero T (earliestAlert T a (a :: rest)).LastUpdate
          ≤ parseOrZero T x.LastUpdate) := by
  have hself : earliestAlert T a (a :: rest) = earliestAlert T a rest := by
    rw [earliestAlert_cons]
    simp [Before]
  rw [hself]
  have h := earliestAlert_fold T rest [a] a 0 (by simp) (by intro j x hj; omega)
    (by intro x hx; simp at hx; subst hx; exact le_refl _)
  simpa using h

/-! ## Lemmas on a scheduler that does not return -/

theorem checkAndPlayRepeatAudio_diverges {T : TimeAPI} {config : Config} {state : State}
    {s : String} {a clock : Int} {ledger : Ledger}
    (hp : T.parse s = some a) (hd : repeatInterval config ≤ 0)
    (hlt : Truncate a Minute + repeatInterval config < Truncate clock Minute) :
    ∀ fuel, checkAndPlayRepeatAudio T fuel config state s clock ledger = none := by
  intro fuel
  unfold checkAndPlayRepeatAudio
  simp only [hp, Add]
  exact repeatLoop_diverges T _ _ _ hd fuel _ _ hlt

/-- On a store whose record of the region is active and notified, an active
observation with repeats enabled, a non-positive interval, a parseable anchor
and a first candidate before now never returns. -/
theorem ProcessStateWithRegion_diverges {T : TimeAPI} {config : Config} {clock : Int}
    {lu r ty name : String} {states : List State} {ledger : Ledger} {i : Nat} {c : State}
    {a : Int}
    (hf : findState states r = some (i, c)) (hb : c.IsActive = true) (ha : c.Alarmed = true)
    (hen : config.EnableRepeatAudio = true)
    (hp : T.parse lu = some a) (hd : repeatInterval config ≤ 0)
    (hlt : Truncate a Minute + repeatInterval config < Truncate clock Minute) :
    ∀ fuel, ProcessStateWithRegion T fuel config clock true lu r ty name (.ok states) ledger
      = none := by
  intro fuel
  rw [ProcessStateWithRegion_unchanged T fuel config clock true lu r ty name states ledger hf
    hb ha]
  simp only [hen, Bool.and_self, if_true]
  rw [checkAndPlayRepeatAudio_diverges hp hd hlt fuel]

/-! ## Lemmas on the transition sequence -/

/-- Under any configuration, a run of the observations active, active,
inactive of one region that returns, from a store without a record of the
region, plays the start and end sounds `[start]`, `[]`, `[end]`. -/
theorem transition_sequence_of_returns (T : TimeAPI) (config : Config) (r : String)
    (states : List State) (hnew : ∀ s ∈ states, s.EventRegion ≠ r)
    (c1 c2 c3 : Time) (lu1 lu2 lu3 ty1 ty2 ty3 n1 n2 n3 : String)
    (fuel : Nat) (ledger : Ledger) (outs : List Outcome)
    (h : runObservations T fuel config
        [⟨c1, true, lu1, r, ty1, n1⟩, ⟨c2, true, lu2, r, ty2, n2⟩, ⟨c3, false, lu3, r, ty3, n3⟩]
        states ledger = some outs) :
    outs.map (fun o => startEnd o.calls)
      = [[Sound.AudioFiles ty1], [], [Sound.AlertOnEmpty]] := by
  obtain ⟨o1, os1, h1, hrest1, rfl⟩ := runObservations_cons h
  obtain ⟨o2, os2, h2, hrest2, rfl⟩ := runObservations_cons hrest1
  obtain ⟨o3, os3, h3, hrest3, rfl⟩ := runObservations_cons hrest2
  simp [runObservations] at hrest3
  subst hrest3
  -- first observation: first sight, active
  have hf0 := (findState_eq_none_iff states r).mpr hnew
  have e1 : startEnd o1.calls = [Sound.AudioFiles ty1] := by
    have h1' := h1
    unfold processObservation at h1'
    rw [ProcessStateWithRegion_firstSight T fuel config c1 true lu1 r ty1 n1 states ledger
      hf0] at h1'
    simp at h1'; subst h1'; rfl
  obtain ⟨i1, d1, hf1, hb1, ha1⟩ := processObservation_leaves_notified h1
  -- second observation: unchanged and notified
  have e2 : startEnd o2.calls = [] := by
    have h2' := h2
    unfold processObservation at h2'
    exact (ProcessStateWithRegion_notified hf1 hb1 ha1 h2').1
  obtain ⟨i2, d2, hf2, hb2, -⟩ := processObservation_leaves_notified h2
  -- third observation: the status changed to inactive
  have e3 : startEnd o3.calls = [Sound.AlertOnEmpty] := by
    have h3' := h3
    unfold processObservation at h3'
    have hne : d2.IsActive ≠ false := by
      have : d2.IsActive = true := hb2
      simp [this]
    rw [ProcessStateWithRegion_statusChanged T fuel config c3 false lu3 r ty3 n3 _ _ hf2
      hne] at h3'
    simp at h3'; subst h3'; rfl
  simp [e1, e2, e3]

/-! ## First sight -/

/-- C1. First sight: on a store without a record of the observed region the call
returns (whatever the fuel), plays nothing when the observation is inactive and
exactly the sound of the event type when it is active, and saves the old store
with one record appended: the observed fields, `Alarmed` true. -/
theorem first_sight (T : TimeAPI) (fuel : Nat) (config : Config) (clock : Time) (isActive : Bool)
    (eventLastUpdate eventRegion activeEventType regionName : String)
    (states : List State) (ledger : Ledger)
    (hnew : ∀ s ∈ states, s.EventRegion ≠ eventRegion) :
    ∃ o, ProcessStateWithRegion T fuel config clock isActive eventLastUpdate eventRegion
          activeEventType regionName (.ok states) ledger = some o ∧
      sounds o.calls = (if isActive then [Sound.AudioFiles activeEventType] else []) ∧
      o.saved = some (states ++
        [{ IsActive := isActive, EventLastUpdate := eventLastUpdate,
           EventRegion := eventRegion, ActiveEventType := activeEventType,
           Alarmed := true }]) := by
  have hf := (findState_eq_none_iff states eventRegion).mpr hnew
  refine ⟨_, ProcessStateWithRegion_firstSight T fuel config clock isActive eventLastUpdate
    eventRegion activeEventType regionName states ledger hf, ?_, rfl⟩
  cases isActive <;> rfl

/-- Witness of C1: an active first observation of region 31 on a store that only
knows region 9. -/
theorem first_sight_witness :
    (∀ s ∈ [otherRecord], s.EventRegion ≠ "31") ∧
    ∃ o, ProcessStateWithRegion stdTime 0 sampleConfig t1000 true "2024-01-01T10:00:00Z" "31"
          "AIR" "Kyiv" (.ok [otherRecord]) emptyLedger = some o ∧
      sounds o.calls = (if true then [Sound.AudioFiles "AIR"] else []) ∧
      o.saved = some ([otherRecord] ++
        [{ IsActive := true, EventLastUpdate := "2024-01-01T10:00:00Z",
           EventRegion := "31", ActiveEventType := "AIR", Alarmed := true }]) :=
  ⟨by simp [otherRecord],
   first_sight stdTime 0 sampleConfig t1000 true "2024-01-01T10:00:00Z" "31" "AIR" "Kyiv"
     [otherRecord] emptyLedger (by simp [otherRecord])⟩

/-! ## The saved store -/

/-- C9, as amended.  Under a configuration whose repeats are disabled or whose
interval (the 64-bit product `repeatInterval`) is positive, for every store
that loaded and every observation, `ProcessStateWithRegion` returns once the
fuel is `enoughFuel`, and the store it saves is the upsert of the observation:
the first record of the region gets the observed timestamp, event type and
status and `Alarmed` true, or such a record is appended when the region has
none.  The upsert removes nothing, keeps every record of another region where
it was, and keeps the region of every position. -/
theorem saved_is_upsert (T : TimeAPI) (config : Config) (clock : Time) (isActive : Bool)
    (eventLastUpdate eventRegion activeEventType regionName : String)
    (states : List State) (ledger : Ledger)
    (hvalid : config.EnableRepeatAudio = false ∨ 0 < repeatInterval config) :
    (∀ fuel, enoughFuel T clock eventLastUpdate ≤ fuel →
      ∃ o, ProcessStateWithRegion T fuel config clock isActive eventLastUpdate
          eventRegion activeEventType regionName (.ok states) ledger = some o ∧
        o.saved = some (upsert isActive eventLastUpdate eventRegion activeEventType states)) ∧
    states.length ≤ (upsert isActive eventLastUpdate eventRegion activeEventType states).length ∧
    (∀ (j : Nat) (s : State), states[j]? = some s → s.EventRegion ≠ eventRegion →
      (upsert isActive eventLastUpdate eventRegion activeEventType states)[j]? = some s) ∧
    (∀ (j : Nat) (s : State), states[j]? = some s →
      ∃ s' : State, (upsert isActive eventLastUpdate eventRegion activeEventType states)[j]? = some s' ∧
        s'.EventRegion = s.EventRegion) := by
  refine ⟨?_, upsert_length _ _ _ _ _, upsert_other _ _ _ _ _, upsert_region_kept _ _ _ _ _⟩
  intro fuel hfuel
  obtain ⟨o, ho⟩ := ProcessStateWithRegion_returns T config clock isActive eventLastUpdate
    eventRegion activeEventType regionName (.ok states) ledger hvalid fuel hfuel
  exact ⟨o, ho, ProcessStateWithRegion_saved ho⟩

/-- Witness of C9: an inactive observation of region 31 on the store that holds
region 9 and then region 31, with repeats every 15 minutes; the call returns
and saves the upsert, in which the record of region 9 is untouched and the
record of region 31 is overwritten. -/
theorem saved_is_upsert_witness :
    (sampleConfig.EnableRepeatAudio = false ∨ 0 < repeatInterval sampleConfig) ∧
    (∃ o, ProcessStateWithRegion stdTime 1 sampleConfig (t1000 + 20 * Minute) false
          "2024-01-01T10:20:00Z" "31" "" "Kyiv" (.ok [otherRecord, activeRecord]) emptyLedger
          = some o ∧
      o.saved
        = some (upsert false "2024-01-01T10:20:00Z" "31" "" [otherRecord, activeRecord])) ∧
    upsert false "2024-01-01T10:20:00Z" "31" "" [otherRecord, activeRecord]
      = [otherRecord, quietState] :=
  ⟨Or.inr (by decide),
   (saved_is_upsert stdTime sampleConfig (t1000 + 20 * Minute) false
      "2024-01-01T10:20:00Z" "31" "" "Kyiv" [otherRecord, activeRecord] emptyLedger
      (Or.inr (by decide))).1 1 (by decide),
   by decide⟩

/-- Counterexample to C9 as stated (every store that loads, every observation):
with repeats enabled and the interval 0, on the store that holds region 9 and
then an active, notified record of region 31, an active observation of region
31 with anchor 10:00 and the clock at 10:07 reaches the scheduler, whose loop
does not end: the call returns for no fuel, so `SaveState` is not reached and
no store is written. -/
theorem saved_is_upsert_no_store :
    findState [otherRecord, activeRecord] "31" = some (1, activeRecord) ∧
    zeroIntervalConfig.EnableRepeatAudio = true ∧
    repeatInterval zeroIntervalConfig = 0 ∧
    ∀ fuel, ProcessStateWithRegion stdTime fuel zeroIntervalConfig (t1000 + 7 * Minute) true
      "2024-01-01T10:00:00Z" "31" "AIR" "Kyiv" (.ok [otherRecord, activeRecord]) emptyLedger
      = none :=
  ⟨by decide, by decide, by decide,
   ProcessStateWithRegion_diverges (i := 1) (c := activeRecord) (a := t1000)
     (by decide) (by decide) (by decide) (by decide) (by decide) (by decide) (by decide)⟩

/-! ## Stores produced by the state machine -/

/-- C10. In every store reachable from the empty store by calls of
`ProcessStateWithRegion`, every record has `Alarmed` true, and no call on such
a store takes the return point of the branch "status unchanged, not yet
notified". -/
theorem reachable_alarmed (states : List State) (h : Reachable states) :
    (∀ s ∈ states, s.Alarmed = true) ∧
    ∀ (T : TimeAPI) (fuel : Nat) (config : Config) (ob : Observation) (ledger : Ledger)
      (o : Outcome),
      processObservation T fuel config ob states ledger = some o →
      o.branch ≠ Branch.notYetNotified := by
  refine ⟨h.all_alarmed, ?_⟩
  intro T fuel config ob ledger o hstep hb
  obtain ⟨c, hc, -, -, ha⟩ := notYetNotified_only_if hstep hb
  rw [h.all_alarmed c hc] at ha
  cases ha

/-- Witness of C10: the store saved after the first active observation of
region 31 on the empty store. -/
theorem reachable_alarmed_witness :
    Reachable [activeRecord] ∧
    (∀ s ∈ [activeRecord], s.Alarmed = true) ∧
    ∀ (T : TimeAPI) (fuel : Nat) (config : Config) (ob : Observation) (ledger : Ledger)
      (o : Outcome),
      processObservation T fuel config ob [activeRecord] ledger = some o →
      o.branch ≠ Branch.notYetNotified :=
  have hr : Reachable [activeRecord] :=
    @Reachable.step stdTime 0 sampleConfig
      ⟨t1000, true, "2024-01-01T10:00:00Z", "31", "AIR", "Kyiv"⟩ [] [activeRecord]
      emptyLedger _ Reachable.empty rfl rfl
  ⟨hr, reachable_alarmed [activeRecord] hr⟩

/-! ## Transitions -/

/-- C2, as amended.  Transition correctness: under a configuration whose
repeats are disabled or whose interval (the 64-bit product `repeatInterval`) is
positive, on a store without a record of the region, the observations active,
active, inactive of that region, each applied to the store left by the one
before, all return once the fuel is `enoughFuelAll`, and play the start and end
sounds `[start]`, `[]`, `[end]`: the sound of the first event type, nothing,
the all-clear sound. -/
theorem transition_sequence (T : TimeAPI) (config : Config) (r : String)
    (states : List State) (hnew : ∀ s ∈ states, s.EventRegion ≠ r)
    (hvalid : config.EnableRepeatAudio = false ∨ 0 < repeatInterval config)
    (c1 c2 c3 : Time) (lu1 lu2 lu3 ty1 ty2 ty3 n1 n2 n3 : String) :
    ∀ fuel ledger,
      enoughFuelAll T
        [⟨c1, true, lu1, r, ty1, n1⟩, ⟨c2, true, lu2, r, ty2, n2⟩,
         ⟨c3, false, lu3, r, ty3, n3⟩] ≤ fuel →
      ∃ outs,
        runObservations T fuel config
          [⟨c1, true, lu1, r, ty1, n1⟩, ⟨c2, true, lu2, r, ty2, n2⟩,
           ⟨c3, false, lu3, r, ty3, n3⟩]
          states ledger = some outs ∧
        outs.map (fun o => startEnd o.calls)
          = [[Sound.AudioFiles ty1], [], [Sound.AlertOnEmpty]] := by
  intro fuel ledger hfuel
  obtain ⟨outs, h, -⟩ := runObservations_returns T config hvalid fuel _ hfuel states ledger
  exact ⟨outs, h, transition_sequence_of_returns T config r states hnew c1 c2 c3 lu1 lu2 lu3
    ty1 ty2 ty3 n1 n2 n3 fuel ledger outs h⟩

/-- Witness of C2: region 31 on a store that only knows region 9, with repeats
every 15 minutes; the run returns and plays start, nothing, end. -/
theorem transition_sequence_witness :
    ((∀ s ∈ [otherRecord], s.EventRegion ≠ "31") ∧
      (sampleConfig.EnableRepeatAudio = false ∨ 0 < repeatInterval sampleConfig)) ∧
    ∃ outs,
      runObservations stdTime
        (enoughFuelAll stdTime
          [⟨t1000, true, "2024-01-01T10:00:00Z", "31", "AIR", "Kyiv"⟩,
           ⟨t1000 + 30000000000, true, "2024-01-01T10:00:00Z", "31", "AIR", "Kyiv"⟩,
           ⟨t1000 + 60000000000, false, "2024-01-01T10:01:00Z", "31", "", "Kyiv"⟩])
        sampleConfig
        [⟨t1000, true, "2024-01-01T10:00:00Z", "31", "AIR", "Kyiv"⟩,
         ⟨t1000 + 30000000000, true, "2024-01-01T10:00:00Z", "31", "AIR", "Kyiv"⟩,
         ⟨t1000 + 60000000000, false, "2024-01-01T10:01:00Z", "31", "", "Kyiv"⟩]
        [otherRecord] emptyLedger = some outs ∧
      outs.map (fun o => startEnd o.calls)
        = [[Sound.AudioFiles "AIR"], [], [Sound.AlertOnEmpty]] :=
  ⟨⟨by simp [otherRecord], Or.inr (by decide)⟩,
   transition_sequence stdTime sampleConfig "31" [otherRecord] (by simp [otherRecord])
     (Or.inr (by decide)) t1000 (t1000 + 30000000000) (t1000 + 60000000000)
     "2024-01-01T10:00:00Z" "2024-01-01T10:00:00Z" "2024-01-01T10:01:00Z"
     "AIR" "AIR" "" "Kyiv" "Kyiv" "Kyiv" _ emptyLedger (le_refl _)⟩

/-- Counterexample to C2 as stated (no condition on the configuration): with
repeats enabled and the interval 0, on the empty store, the observations
active at 10:00, active at 10:05, inactive at 10:10 of region 31.  The first
call returns, plays the start sound and saves the record of region 31; the
second call, on that store, reaches the scheduler, whose loop does not end, so
it returns for no fuel, and the run of the three observations returns for no
fuel: the end sound is never played. -/
theorem transition_sequence_hangs :
    (∀ s ∈ ([] : List State), s.EventRegion ≠ "31") ∧
    (∀ fuel, (processObservation stdTime fuel zeroIntervalConfig
        ⟨t1000, true, "2024-01-01T10:00:00Z", "31", "AIR", "Kyiv"⟩ [] emptyLedger).map
        (fun o => (startEnd o.calls, o.saved))
      = some ([Sound.AudioFiles "AIR"], some [activeRecord])) ∧
    (∀ fuel, processObservation stdTime fuel zeroIntervalConfig
        ⟨t1000 + 5 * Minute, true, "2024-01-01T10:00:00Z", "31", "AIR", "Kyiv"⟩
        [activeRecord] emptyLedger = none) ∧
    ∀ fuel, runObservations stdTime fuel zeroIntervalConfig
      [⟨t1000, true, "2024-01-01T10:00:00Z", "31", "AIR", "Kyiv"⟩,
       ⟨t1000 + 5 * Minute, true, "2024-01-01T10:00:00Z", "31", "AIR", "Kyiv"⟩,
       ⟨t1000 + 10 * Minute, false, "2024-01-01T10:10:00Z", "31", "", "Kyiv"⟩]
      [] emptyLedger = none := by
  have h1 : ∀ fuel, processObservation stdTime fuel zeroIntervalConfig
      ⟨t1000, true, "2024-01-01T10:00:00Z", "31", "AIR", "Kyiv"⟩ [] emptyLedger
      = some ⟨[Call.Log 1 ("Початок повітряної тривоги (" ++ "AIR" ++ ") в регіоні: " ++ "Kyiv"),
               Call.PlayAudio (Sound.AudioFiles "AIR")],
              some [activeRecord], emptyLedger, .firstSight⟩ := fun fuel =>
    ProcessStateWithRegion_firstSight stdTime fuel zeroIntervalConfig t1000 true
      "2024-01-01T10:00:00Z" "31" "AIR" "Kyiv" [] emptyLedger rfl
  have h2 : ∀ fuel, processObservation stdTime fuel zeroIntervalConfig
      ⟨t1000 + 5 * Minute, true, "2024-01-01T10:00:00Z", "31", "AIR", "Kyiv"⟩
      [activeRecord] emptyLedger = none :=
    ProcessStateWithRegion_diverges (i := 0) (c := activeRecord) (a := t1000)
      (by decide) (by decide) (by decide) (by decide) (by decide) (by decide) (by decide)
  refine ⟨by simp, ?_, h2, ?_⟩
  · intro fuel
    rw [h1 fuel]
    rfl
  · intro fuel
    simp [runObservations, h1 fuel, h2 fuel]

/-! ## No duplicate start or end -/

/-- C3. No duplicate start or end.  On a store whose record of the observed
region has `Alarmed` true and `IsActive` equal to the observed status, a call
that returns plays no start and no end sound and saves the store with only the
timestamp and the event type of that record refreshed (`IsActive` and `Alarmed`
as they were).  Hence, for observations of one region with one status, fed in
sequence from any store, at most one start or end sound is played in total and
none after the first observation.  The run returns, given the fuel
`enoughFuelAll`, whenever repeats are disabled or the interval is positive. -/
theorem no_duplicate_start_end (T : TimeAPI) (config : Config) (r : String) (b : Bool) :
    (∀ (states : List State) (i : Nat) (c : State),
      findState states r = some (i, c) → c.Alarmed = true → c.IsActive = b →
      ∀ (fuel : Nat) (clock : Time) (lu ty name : String) (ledger : Ledger) (o : Outcome),
        ProcessStateWithRegion T fuel config clock b lu r ty name (.ok states) ledger = some o →
        startEnd o.calls = [] ∧
        o.saved = some (states.set i { c with EventLastUpdate := lu, ActiveEventType := ty })) ∧
    (∀ (obs : List Observation), (∀ ob ∈ obs, ob.eventRegion = r ∧ ob.isActive = b) →
      ∀ (fuel : Nat) (states : List State) (ledger : Ledger) (outs : List Outcome),
        runObservations T fuel config obs states ledger = some outs →
        (outs.map (fun o => (startEnd o.calls).length)).sum ≤ 1 ∧
        ∀ o ∈ outs.drop 1, startEnd o.calls = []) ∧
    ((config.EnableRepeatAudio = false ∨ 0 < repeatInterval config) →
      ∀ (obs : List Observation) (fuel : Nat), enoughFuelAll T obs ≤ fuel →
        ∀ (states : List State) (ledger : Ledger),
          ∃ outs, runObservations T fuel config obs states ledger = some outs ∧
            outs.length = obs.length) := by
  refine ⟨?_, ?_, ?_⟩
  · intro states i c hf ha hb fuel clock lu ty name ledger o h
    exact ProcessStateWithRegion_notified hf hb ha h
  · intro obs hall fuel states ledger outs h
    cases obs with
    | nil =>
      simp [runObservations] at h
      subst h
      simp
    | cons ob rest =>
      obtain ⟨o, os, h1, h2, rfl⟩ := runObservations_cons h
      obtain ⟨hr, hact⟩ := hall ob (List.mem_cons_self _ _)
      obtain ⟨i, c, hf, hb, ha⟩ := processObservation_leaves_notified h1
      rw [hr] at hf
      rw [hact] at hb
      have hquiet := runObservations_quiet T fuel config r b rest
        (fun x hx => hall x (List.mem_cons_of_mem _ hx)) _ _ i c os hf hb ha h2
      have hle : (startEnd o.calls).length ≤ 1 := by
        unfold processObservation at h1
        exact ProcessStateWithRegion_startEnd_le h1
      refine ⟨?_, by simpa using hquiet⟩
      have := sum_startEnd_quiet os hquiet
      simp only [List.map_cons, List.sum_cons, this]
      omega
  · intro hvalid obs fuel hfuel states ledger
    exact runObservations_returns T config hvalid fuel obs hfuel states ledger

/-- Witness of C3: three active observations of region 31 from the empty store,
at 10:00, 10:15 and 10:16 with repeats every 15 minutes; the run returns, plays
at most one start or end sound and none after the first observation. -/
theorem no_duplicate_start_end_witness :
    ∃ outs,
      runObservations stdTime
        (enoughFuelAll stdTime
          [⟨t1000, true, "2024-01-01T10:00:00Z", "31", "AIR", "Kyiv"⟩,
           ⟨t1000 + 15 * Minute, true, "2024-01-01T10:00:00Z", "31", "AIR", "Kyiv"⟩,
           ⟨t1000 + 16 * Minute, true, "2024-01-01T10:00:00Z", "31", "AIR", "Kyiv"⟩])
        sampleConfig
        [⟨t1000, true, "2024-01-01T10:00:00Z", "31", "AIR", "Kyiv"⟩,
         ⟨t1000 + 15 * Minute, true, "2024-01-01T10:00:00Z", "31", "AIR", "Kyiv"⟩,
         ⟨t1000 + 16 * Minute, true, "2024-01-01T10:00:00Z", "31", "AIR", "Kyiv"⟩]
        [] emptyLedger = some outs ∧
      outs.length = 3 ∧
      (outs.map (fun o => (startEnd o.calls).length)).sum ≤ 1 ∧
      ∀ o ∈ outs.drop 1, startEnd o.calls = [] :=
  have h := no_duplicate_start_end stdTime sampleConfig "31" true
  (h.2.2 (Or.inr (by decide))
    [⟨t1000, true, "2024-01-01T10:00:00Z", "31", "AIR", "Kyiv"⟩,
     ⟨t1000 + 15 * Minute, true, "2024-01-01T10:00:00Z", "31", "AIR", "Kyiv"⟩,
     ⟨t1000 + 16 * Minute, true, "2024-01-01T10:00:00Z", "31", "AIR", "Kyiv"⟩]
    _ (le_refl _) [] emptyLedger).elim
    (fun outs hout =>
      ⟨outs, hout.1, hout.2,
       h.2.1 _ (by
          intro ob hob
          simp only [List.mem_cons, List.mem_singleton, List.not_mem_nil, or_false] at hob
          rcases hob with rfl | rfl | rfl <;> exact ⟨rfl, rfl⟩) _ [] emptyLedger outs hout.1⟩)

/-! ## Repeat alignment -/

/-- C4, as amended.  For a parseable anchor `a`, an interval of `n` minutes with
`1 ≤ n ≤ 153722867` (so that `n` minutes fit a 64-bit `time.Duration`), any
reading of the clock and any ledger, the scheduler returns once the fuel is
`enoughFuel`, and the reminder fires exactly when the clock truncated to the
minute is `a` truncated to the minute plus `k * n` minutes for an integer
`k ≥ 1` and the minute-key of that minute is not recorded for the region.  When
it fires the minute-key is recorded, no other key changes, and a second check
within the same minute plays nothing; otherwise nothing is played and the
recorded keys are unchanged. -/
theorem repeat_alignment (T : TimeAPI) (config : Config) (state : State) (s : String)
    (a clock : Time) (ledger : Ledger)
    (hparse : T.parse s = some a)
    (hmin : 1 ≤ config.RepeatIntervalMin) (hmax : config.RepeatIntervalMin ≤ 153722867) :
    ∀ fuel, enoughFuel T clock s ≤ fuel →
      ∃ calls ledger',
        checkAndPlayRepeatAudio T fuel config state s clock ledger = some (calls, ledger') ∧
        ((((∃ k : Int, 1 ≤ k ∧ Truncate clock Minute
                = Truncate a Minute + k * (config.RepeatIntervalMin * Minute)) ∧
            ledger.played state.EventRegion (T.format (Truncate clock Minute)) = false) ∧
          sounds calls = [Sound.RepeatAudioFile] ∧
          ledger'.played state.EventRegion (T.format (Truncate clock Minute)) = true ∧
          (∀ r k, (r ≠ state.EventRegion ∨ k ≠ T.format (Truncate clock Minute)) →
            ledger'.played r k = ledger.played r k) ∧
          (∀ clock2 fuel2, Truncate clock2 Minute = Truncate clock Minute →
            enoughFuel T clock2 s ≤ fuel2 →
            ∃ ledger2, checkAndPlayRepeatAudio T fuel2 config state s clock2 ledger'
              = some ([], ledger2))) ∨
         (¬ ((∃ k : Int, 1 ≤ k ∧ Truncate clock Minute
                = Truncate a Minute + k * (config.RepeatIntervalMin * Minute)) ∧
            ledger.played state.EventRegion (T.format (Truncate clock Minute)) = false) ∧
          calls = [] ∧ ∀ r k, ledger'.played r k = ledger.played r k)) := by
  obtain ⟨hd, hpos⟩ := repeatInterval_of_bounds config hmin hmax
  intro fuel hfuel
  obtain ⟨calls, ledger', hres, hcases⟩ :=
    @checkAndPlayRepeatAudio_spec T config state s a clock ledger hparse hpos fuel hfuel
  refine ⟨calls, ledger', hres, ?_⟩
  rw [grid_iff, hd] at hcases
  rcases hcases with ⟨hdue, hcalls, hrec, hother⟩ | ⟨hnot, hcalls, hsame⟩
  · left
    refine ⟨hdue, by rw [hcalls]; rfl, hrec, hother, ?_⟩
    intro clock2 fuel2 htr hfuel2
    obtain ⟨calls2, ledger2, hres2, hcases2⟩ :=
      @checkAndPlayRepeatAudio_spec T config state s a clock2 ledger' hparse hpos fuel2
        hfuel2
    rw [htr] at hcases2
    rcases hcases2 with ⟨⟨-, hfalse⟩, -⟩ | ⟨-, hcalls2, -⟩
    · rw [hrec] at hfalse
      cases hfalse
    · exact ⟨ledger2, by rw [hres2, hcalls2]⟩
  · right
    exact ⟨hnot, hcalls, hsame⟩

/-- Witness of C4: anchor 10:00, interval 15 minutes, the clock at 10:15:07,
an empty ledger. -/
theorem repeat_alignment_witness :
    (stdTime.parse "2024-01-01T10:00:00Z" = some t1000 ∧
      1 ≤ sampleConfig.RepeatIntervalMin ∧ sampleConfig.RepeatIntervalMin ≤ 153722867) ∧
    ∀ fuel, enoughFuel stdTime (t1000 + 907000000000) "2024-01-01T10:00:00Z" ≤ fuel →
      ∃ calls ledger',
        checkAndPlayRepeatAudio stdTime fuel sampleConfig activeRecord "2024-01-01T10:00:00Z"
          (t1000 + 907000000000) emptyLedger = some (calls, ledger') ∧
        ((((∃ k : Int, 1 ≤ k ∧ Truncate (t1000 + 907000000000) Minute
                = Truncate t1000 Minute + k * (sampleConfig.RepeatIntervalMin * Minute)) ∧
            emptyLedger.played activeRecord.EventRegion
              (stdTime.format (Truncate (t1000 + 907000000000) Minute)) = false) ∧
          sounds calls = [Sound.RepeatAudioFile] ∧
          ledger'.played activeRecord.EventRegion
            (stdTime.format (Truncate (t1000 + 907000000000) Minute)) = true ∧
          (∀ r k, (r ≠ activeRecord.EventRegion ∨
              k ≠ stdTime.format (Truncate (t1000 + 907000000000) Minute)) →
            ledger'.played r k = emptyLedger.played r k) ∧
          (∀ clock2 fuel2,
            Truncate clock2 Minute = Truncate (t1000 + 907000000000) Minute →
            enoughFuel stdTime clock2 "2024-01-01T10:00:00Z" ≤ fuel2 →
            ∃ ledger2, checkAndPlayRepeatAudio stdTime fuel2 sampleConfig activeRecord
              "2024-01-01T10:00:00Z" clock2 ledger' = some ([], ledger2))) ∨
         (¬ ((∃ k : Int, 1 ≤ k ∧ Truncate (t1000 + 907000000000) Minute
                = Truncate t1000 Minute + k * (sampleConfig.RepeatIntervalMin * Minute)) ∧
            emptyLedger.played activeRecord.EventRegion
              (stdTime.format (Truncate (t1000 + 907000000000) Minute)) = false) ∧
          calls = [] ∧ ∀ r k, ledger'.played r k = emptyLedger.played r k)) :=
  ⟨⟨by decide, by decide, by decide⟩,
   repeat_alignment stdTime sampleConfig activeRecord "2024-01-01T10:00:00Z" t1000
     (t1000 + 907000000000) emptyLedger (by decide) (by decide) (by decide)⟩

/-- The scenario of C4 evaluated: anchor 10:00, interval 15 minutes, checks at
10:15, 10:15 again, 10:16 and 10:30 on one ledger.  The reminder is played at
10:15 once, not at 10:16, and again at 10:30. -/
theorem repeat_alignment_scenario :
    runChecks stdTime 3 sampleConfig activeRecord "2024-01-01T10:00:00Z"
      [t1000 + 15 * Minute, t1000 + 15 * Minute + 30000000000, t1000 + 16 * Minute,
       t1000 + 30 * Minute] emptyLedger
      = some [[Sound.RepeatAudioFile], [], [], [Sound.RepeatAudioFile]] := by
  decide

/-- Counterexample to C4 as stated (every interval `n ≥ 1`): with `n = 2^53` the
interval wraps to zero, so the first candidate is the anchor minute itself and
the reminder is played within the anchor minute, which is not the anchor plus
`k * n` minutes for any `k ≥ 1`. -/
theorem repeat_alignment_overflow :
    stdTime.parse "2024-01-01T10:00:00Z" = some t1000 ∧
    1 ≤ overflowConfig.RepeatIntervalMin ∧
    (checkAndPlayRepeatAudio stdTime 1 overflowConfig activeRecord "2024-01-01T10:00:00Z"
        (t1000 + 30000000000) emptyLedger).map (fun res => sounds res.1)
      = some [Sound.RepeatAudioFile] ∧
    ¬ ∃ k : Int, 1 ≤ k ∧ Truncate (t1000 + 30000000000) Minute
        = Truncate t1000 Minute + k * (overflowConfig.RepeatIntervalMin * Minute) := by
  refine ⟨by decide, by decide, by decide, ?_⟩
  rintro ⟨k, hk, h⟩
  have h1 : Truncate (t1000 + 30000000000) Minute = Truncate t1000 Minute := by decide
  have h2 : overflowConfig.RepeatIntervalMin * Minute = 540431955284459520000000000 := by
    decide
  rw [h1, h2] at h
  have h3 : k * 540431955284459520000000000 = 0 := by linarith
  have h4 : (0 : Int) < k * 540431955284459520000000000 := by positivity
  omega

/-! ## Selection of the representative alert -/

/-- C5. For a record whose active alerts are not empty and all carry a
parseable timestamp, the event derived by `ProcessAlertsWithFirstRun` and
`ProcessAlerts` is active and takes its type and timestamp from an alert of the
list whose parsed time is minimal; every alert before it in the list has a
strictly later time, so among alerts sharing the minimum the first in source
order is the one selected. -/
theorem earliest_selected (T : TimeAPI) (first : APIResponse)
    (hne : first.ActiveAlerts ≠ [])
    (hparse : ∀ a ∈ first.ActiveAlerts, ∃ t, T.parse a.LastUpdate = some t) :
    ∃ (i : Nat) (sel : Alert) (tsel : Time),
      first.ActiveAlerts[i]? = some sel ∧ T.parse sel.LastUpdate = some tsel ∧
      (eventOf T first).isActive = true ∧
      (eventOf T first).activeEventType = sel.Type_ ∧
      (eventOf T first).eventLastUpdate = sel.LastUpdate ∧
      (∀ x ∈ first.ActiveAlerts, ∀ t, T.parse x.LastUpdate = some t → tsel ≤ t) ∧
      (∀ (j : Nat) (x : Alert) (t : Time), j < i → first.ActiveAlerts[j]? = some x →
        T.parse x.LastUpdate = some t → tsel < t) := by
  cases hl : first.ActiveAlerts with
  | nil => exact absurd hl hne
  | cons a rest =>
    obtain ⟨i, hi, hlt, hle⟩ := earliestAlert_first T a rest
    have hmem : earliestAlert T a (a :: rest) ∈ first.ActiveAlerts := by
      rw [hl]; exact List.getElem?_mem hi
    obtain ⟨tsel, htsel⟩ := hparse _ hmem
    have hz : parseOrZero T (earliestAlert T a (a :: rest)).LastUpdate = tsel := by
      simp [parseOrZero, htsel]
    refine ⟨i, earliestAlert T a (a :: rest), tsel, hi, htsel, ?_, ?_, ?_, ?_, ?_⟩
    · simp [eventOf, hl]
    · simp [eventOf, hl]
    · simp [eventOf, hl]
    · intro x hx t ht
      have := hle x hx
      rw [hz] at this
      simpa [parseOrZero, ht] using this
    · intro j x t hj hjx ht
      have := hlt j x hj hjx
      rw [hz] at this
      simpa [parseOrZero, ht] using this

/-- Witness of C5: two active alerts with the same timestamp; the first in
source order, of type AIR, is the one selected. -/
theorem earliest_selected_witness :
    (tieRecord.ActiveAlerts ≠ [] ∧
      ∀ a ∈ tieRecord.ActiveAlerts, ∃ t, stdTime.parse a.LastUpdate = some t) ∧
    (eventOf stdTime tieRecord).activeEventType = "AIR" ∧
    ∃ (i : Nat) (sel : Alert) (tsel : Time),
      tieRecord.ActiveAlerts[i]? = some sel ∧ stdTime.parse sel.LastUpdate = some tsel ∧
      (eventOf stdTime tieRecord).isActive = true ∧
      (eventOf stdTime tieRecord).activeEventType = sel.Type_ ∧
      (eventOf stdTime tieRecord).eventLastUpdate = sel.LastUpdate ∧
      (∀ x ∈ tieRecord.ActiveAlerts, ∀ t, stdTime.parse x.LastUpdate = some t → tsel ≤ t) ∧
      (∀ (j : Nat) (x : Alert) (t : Time), j < i → tieRecord.ActiveAlerts[j]? = some x →
        stdTime.parse x.LastUpdate = some t → tsel < t) :=
  have hp : ∀ a ∈ tieRecord.ActiveAlerts, ∃ t, stdTime.parse a.LastUpdate = some t := by
    intro a ha
    simp only [tieRecord, List.mem_cons, List.mem_singleton, List.not_mem_nil, or_false] at ha
    rcases ha with rfl | rfl <;> exact ⟨t1000, by decide⟩
  ⟨⟨by decide, hp⟩, by decide, earliest_selected stdTime tieRecord (by decide) hp⟩

/-- C6, evaluated at the failing input: of a parseable alert of type AIR
followed by an alert of type ARTILLERY whose timestamp does not parse, the
second is selected: its timestamp counts as the zero time, which is before
the parsed time of the first. -/
theorem malformed_timestamp_selected :
    stdTime.parse "2024-01-01T10:00:00Z" = some t1000 ∧
    stdTime.parse "not-a-time" = none ∧
    (eventOf stdTime malformedRecord).activeEventType = "ARTILLERY" ∧
    (eventOf stdTime malformedRecord).eventLastUpdate = "not-a-time" := by
  decide

/-! ## A non-positive interval -/

/-- C7, evaluated at the failing input: repeats enabled, interval 0, the record
of region 31 active and notified, an active observation with anchor 10:00 and
the clock at 10:05.  With repeats enabled the call does not return, whatever
the fuel; with repeats disabled it returns without a call.  With the clock
still in the anchor minute the call with repeats enabled returns and plays the
repeat reminder. -/
theorem zero_interval_diverges :
    (∀ fuel, ProcessStateWithRegion stdTime fuel zeroIntervalConfig (t1000 + 5 * Minute) true
        "2024-01-01T10:00:00Z" "31" "AIR" "Kyiv" (.ok [activeRecord]) emptyLedger = none) ∧
    (ProcessStateWithRegion stdTime 0 { zeroIntervalConfig with EnableRepeatAudio := false }
        (t1000 + 5 * Minute) true "2024-01-01T10:00:00Z" "31" "AIR" "Kyiv"
        (.ok [activeRecord]) emptyLedger).map (fun o => o.calls) = some [] ∧
    (ProcessStateWithRegion stdTime 1 zeroIntervalConfig (t1000 + 30000000000) true
        "2024-01-01T10:00:00Z" "31" "AIR" "Kyiv" (.ok [activeRecord]) emptyLedger).map
        (fun o => sounds o.calls) = some [Sound.RepeatAudioFile] ∧
    (ProcessStateWithRegion stdTime 1 { zeroIntervalConfig with EnableRepeatAudio := false }
        (t1000 + 30000000000) true "2024-01-01T10:00:00Z" "31" "AIR" "Kyiv"
        (.ok [activeRecord]) emptyLedger).map (fun o => sounds o.calls) = some [] := by
  refine ⟨?_, by decide, by decide, by decide⟩
  exact ProcessStateWithRegion_diverges (i := 0) (c := activeRecord) (a := t1000)
    (by decide) (by decide) (by decide) (by decide) (by decide) (by decide) (by decide)

/-! ## The key of the persisted record -/

/-- C8, evaluated at the failing input: the record of region 31 polled with one
active alert that carries the region identifier 150, then polled with no active
alert.  The first poll is keyed by 150, plays the start sound and saves a
record of region 150; the second poll is keyed by 31, finds no record, plays
nothing (no end sound) and appends a record of region 31, leaving the record
of region 150 active. -/
theorem region_key_differs :
    (eventOf stdTime districtAlertRecord).eventRegion = "150" ∧
    (eventOf stdTime quietRecord).eventRegion = "31" ∧
    (ProcessAlertsWithFirstRun stdTime 1 sampleConfig t1000 (.ok [districtAlertRecord])
        (.ok []) emptyLedger).map (fun o => (sounds o.calls, o.saved, o.branch))
      = some ([Sound.AudioFiles "AIR"], some [districtState], some Branch.firstSight) ∧
    (ProcessAlertsWithFirstRun stdTime 1 sampleConfig (t1000 + 20 * Minute) (.ok [quietRecord])
        (.ok [districtState]) emptyLedger).map (fun o => (sounds o.calls, o.saved, o.branch))
      = some ([], some [districtState, quietState], some Branch.firstSight) := by
  decide

end Alerts
